import Mathlib

/-!
# pbs-collector: the JSON serializer of `pbscaller.c`

A shallow embedding of `json_escape`, `process_data_json` and `main` from
`src/pbs-collector/pbscaller.c`, followed by theorems about the document they write and about
the order in which the driver fetches and serializes the categories.

Conventions of the embedding:

* a C `char` is a `UInt8`; a `char *` argument is the list of bytes found at the pointer,
  and the C string it denotes ends at the first NUL byte or at the end of the list;
* the `next`-linked lists of `struct batch_status` and `struct attrl` are Lean lists, a NULL
  head being `[]`; the nullable `resource` pointer is an `Option`;
* a `FILE *` is an explicit stream state threaded through every output call; whether a path can
  be opened and whether the k-th output call on the stream succeeds is decided by an `Env`;
* `int count` is an `Int` kept in the 32-bit two's complement range;
* the PBS library is a `World` of functions, and a run of `main` leaves a list of `Event`s.
-/

namespace PbsCollector

/-! ## Bytes and C strings -/

/-- The bytes of an ASCII string literal of the source. -/
def bytes (s : String) : List UInt8 :=
  s.toList.map (fun c => UInt8.ofNat c.toNat)

/-- The C string stored at a pointer: the bytes before the first NUL. This is what a `%s`
conversion prints. -/
def cstr : List UInt8 → List UInt8
  | [] => []
  | c :: p => if c = 0 then [] else c :: cstr p

/-! ## The output stream -/

/-- The state of an output stream: the bytes it has accepted, the number of output calls made on
it, and its error indicator. -/
structure FILE where
  data : List UInt8
  calls : Nat
  err : Bool
deriving DecidableEq, Repr

/-- The environment of one run: which paths `fopen(path, "w")` can open, which output calls
on the opened stream succeed (by call index), and whether the final `fclose` succeeds. -/
structure Env where
  fopen_ok : List UInt8 → Bool
  write_ok : Nat → Bool
  fclose_ok : Bool

/-- One output call on the stream: the bytes are appended when the call succeeds; a failing call
writes nothing and sets the error indicator. -/
def FILE.put (env : Env) (s : List UInt8) (fp : FILE) : FILE :=
  if env.write_ok fp.calls then
    { data := fp.data ++ s, calls := fp.calls + 1, err := fp.err }
  else
    { data := fp.data, calls := fp.calls + 1, err := true }

/-- The call `fputs(s, fp)`; the returned status is not part of the model because the source
never reads it. -/
def fputs (env : Env) (s : List UInt8) (fp : FILE) : FILE := fp.put env s

/-- The call `fputc(c, fp)`. -/
def fputc (env : Env) (c : UInt8) (fp : FILE) : FILE := fp.put env [c]

/-- The call `fprintf(fp, ...)`, given the bytes its format expands to. -/
def fprintf (env : Env) (fp : FILE) (formatted : List UInt8) : FILE := fp.put env formatted

/-- The value `fclose(fp)` returns: 0, or EOF (-1) when the close fails. -/
def fclose (env : Env) (_fp : FILE) : Int :=
  if env.fclose_ok then 0 else -1

/-- The stream `fopen(path, "w")` returns on success: an empty (truncated) file. -/
def FILE.fresh : FILE := { data := [], calls := 0, err := false }

/-- The result of `snprintf(buf, size, ...)` read back as a C string: at most `size - 1`
bytes of the expansion are stored. -/
def snprintf (size : Nat) (formatted : List UInt8) : List UInt8 :=
  formatted.take (size - 1)

/-! ## Integers -/

/-- Reduction of an integer into the range of a 32-bit `int`. An increment past `INT_MAX` is
undefined in C; the embedding takes the two's complement result. -/
def int_wrap (i : Int) : Int := (i + 2147483648) % 4294967296 - 2147483648

/-- Decimal digits of a natural number, most significant first; `fuel` bounds the number of
digits produced. -/
def utoa : Nat → Nat → List UInt8 → List UInt8
  | 0, _, acc => acc
  | fuel + 1, n, acc =>
    if n / 10 = 0 then UInt8.ofNat (48 + n % 10) :: acc
    else utoa fuel (n / 10) (UInt8.ofNat (48 + n % 10) :: acc)

/-- The expansion of a `%d` conversion. -/
def fmt_d (i : Int) : List UInt8 :=
  if i < 0 then 45 :: utoa (i.natAbs + 1) i.natAbs [] else utoa (i.natAbs + 1) i.natAbs []

/-! ## `json_escape` -/

/-- Source `json_escape(src, fp)`: one pass over the C string at `src`, one output call per
input byte. -/
def json_escape (env : Env) : List UInt8 → FILE → FILE
  | [], fp => fp
  | c :: p, fp =>
    if c = 0 then fp
    else if c = 34 then json_escape env p (fputs env (bytes "\\\"") fp)
    else if c = 92 then json_escape env p (fputs env (bytes "\\\\") fp)
    else if c = 10 then json_escape env p (fputs env (bytes "\\n") fp)
    else if c = 13 then json_escape env p (fputs env (bytes "\\r") fp)
    else if c = 9 then json_escape env p (fputs env (bytes "\\t") fp)
    else json_escape env p (fputc env c fp)

/-! ## The PBS data model -/

/-- One `struct attrl` node without its `next` link. -/
structure attrl where
  name : List UInt8
  resource : Option (List UInt8)
  value : List UInt8
deriving DecidableEq, Repr

/-- One `struct batch_status` node without its `next` link. -/
structure batch_status where
  name : List UInt8
  attribs : List attrl
deriving DecidableEq, Repr

/-! ## `process_data_json` -/

/-- The counting loop `for (tmp = bs; tmp != NULL; tmp = tmp->next) count++;`. -/
def count_loop : List batch_status → Int → Int
  | [], count => count
  | _ :: next, count => count_loop next (int_wrap (count + 1))

/-- The inner loop of `process_data_json` over the attributes of one record. -/
def attr_loop (env : Env) : List attrl → FILE → FILE
  | [], fp => fp
  | atp :: next, fp =>
    let fp := fprintf env fp (bytes "        \"")
    let fp := json_escape env atp.name fp
    let fp := match atp.resource with
      | some resource => json_escape env resource (fputc env 46 fp)
      | none => fp
    let fp := fprintf env fp (bytes "\": \"")
    let fp := json_escape env atp.value fp
    let fp := fprintf env fp (bytes "\"")
    let fp := if next ≠ [] then fprintf env fp (bytes ",") else fp
    let fp := fputc env 10 fp
    attr_loop env next fp

/-- The outer loop of `process_data_json` over the records. -/
def item_loop (env : Env) : List batch_status → FILE → FILE
  | [], fp => fp
  | tmp :: next, fp =>
    let fp := fprintf env fp (bytes "    \x7b\n")
    let fp := fprintf env fp (bytes "      \"name\": \"")
    let fp := json_escape env tmp.name fp
    let fp := fprintf env fp (bytes "\",\n")
    let fp := fprintf env fp (bytes "      \"attributes\": \x7b\n")
    let fp := attr_loop env tmp.attribs fp
    let fp := fprintf env fp (bytes "      \x7d\n")
    let fp := fprintf env fp (bytes "    \x7d")
    let fp := if next ≠ [] then fprintf env fp (bytes ",") else fp
    let fp := fputc env 10 fp
    item_loop env next fp

/-- What one call of `process_data_json` leaves behind: the returned status, the path handed to
`fopen`, the stream after the last output call (`none` when it was never opened), the value
`fclose` returned (discarded by the source), and the bytes written to standard error. -/
structure Outcome where
  ret : Int
  filename : List UInt8
  file : Option FILE
  closed : Option Int
  stderr : List UInt8
deriving DecidableEq, Repr

/-- Source `process_data_json(bs, type, output_dir)`. The final `pbs_statfree(bs)` releases
memory and leaves no trace in the outcome. -/
def process_data_json (env : Env) (bs : List batch_status) (type output_dir : List UInt8) :
    Outcome :=
  let filename := snprintf 512 (cstr output_dir ++ bytes "/" ++ cstr type ++ bytes ".json")
  if env.fopen_ok filename then
    let count := count_loop bs 0
    let fp := FILE.fresh
    let fp := fprintf env fp (bytes "\x7b\n")
    let fp := fprintf env fp (bytes "  \"type\": \"" ++ cstr type ++ bytes "\",\n")
    let fp := fprintf env fp (bytes "  \"count\": " ++ fmt_d count ++ bytes ",\n")
    let fp := fprintf env fp (bytes "  \"items\": [\n")
    let fp := item_loop env bs fp
    let fp := fprintf env fp (bytes "  ]\n")
    let fp := fprintf env fp (bytes "\x7d\n")
    { ret := 0, filename := filename, file := some fp, closed := some (fclose env fp),
      stderr := [] }
  else
    { ret := -1, filename := filename, file := none, closed := none,
      stderr := bytes "Failed to open file " ++ filename ++ bytes " for writing\n" }

/-- An environment in which every path opens and no output call fails. -/
def Env.healthy : Env := { fopen_ok := fun _ => true, write_ok := fun _ => true, fclose_ok := true }

/-! ## The text a stream receives when no output call fails -/

/-- The bytes `json_escape(s, fp)` adds to a stream on which no output call fails. -/
def json_escape_out (s : List UInt8) : List UInt8 :=
  (json_escape Env.healthy s FILE.fresh).data

/-- The replacement the escaping table assigns to one byte: the five special bytes get a
two-byte escape, every other byte stands for itself. -/
def escape_byte (b : UInt8) : List UInt8 :=
  if b = 34 then [92, 34]
  else if b = 92 then [92, 92]
  else if b = 10 then [92, 110]
  else if b = 13 then [92, 114]
  else if b = 9 then [92, 116]
  else [b]

/-- The elements of an array or object written one per line: every element is preceded by
`indent`, every element but the last is followed by a comma, every line ends in a line feed.
No element gives no line. -/
def comma_lines (indent : List UInt8) (elems : List (List UInt8)) : List UInt8 :=
  match elems with
  | [] => []
  | _ :: _ => indent ++ List.intercalate (44 :: 10 :: indent) elems ++ [10]

/-- The key of an attribute field: the escaped name, then `.` and the escaped resource when a
resource is present. -/
def field_key (a : attrl) : List UInt8 :=
  match a.resource with
  | some resource => json_escape_out a.name ++ 46 :: json_escape_out resource
  | none => json_escape_out a.name

/-- One attribute field, `"key": "value"`. -/
def field_text (a : attrl) : List UInt8 :=
  34 :: field_key a ++ bytes "\": \"" ++ json_escape_out a.value ++ [34]

/-- One item object, from its opening to its closing brace: the escaped record name and the
fields of the attributes of this record, in the order of its attribute list. -/
def item_text (r : batch_status) : List UInt8 :=
  bytes "\x7b\n      \"name\": \"" ++ json_escape_out r.name
    ++ bytes "\",\n      \"attributes\": \x7b\n"
    ++ comma_lines (bytes "        ") (r.attribs.map field_text)
    ++ bytes "      \x7d\n    \x7d"

/-- The whole document for a category, a printed count and a list of records: the item objects
of the records in the order of the list. -/
def document_text (type : List UInt8) (count : Int) (bs : List batch_status) : List UInt8 :=
  bytes "\x7b\n  \"type\": \"" ++ cstr type ++ bytes "\",\n  \"count\": " ++ fmt_d count
    ++ bytes ",\n  \"items\": [\n" ++ comma_lines (bytes "    ") (bs.map item_text)
    ++ bytes "  ]\n\x7d\n"

/-! ## Decoding and reading back -/

/-- The byte an escape sequence `\e` of the escaper stands for, if `e` is one of its five. -/
def decode_escape (e : UInt8) : Option UInt8 :=
  if e = 34 then some 34
  else if e = 92 then some 92
  else if e = 110 then some 10
  else if e = 114 then some 13
  else if e = 116 then some 9
  else none

/-- Decoding of string content: the five two-byte escapes are replaced by the byte they stand
for, every other byte is taken literally. -/
def json_unescape : List UInt8 → List UInt8
  | [] => []
  | [c] => [c]
  | c :: e :: rest =>
    if c = 92 then
      match decode_escape e with
      | some b => b :: json_unescape rest
      | none => c :: json_unescape (e :: rest)
    else c :: json_unescape (e :: rest)

/-- The number a string of decimal digits denotes. -/
def read_nat (ds : List UInt8) : Nat :=
  ds.foldl (fun acc d => 10 * acc + (d.toNat - 48)) 0

/-! ## A JSON recognizer (RFC 8259, over bytes)

The grammar `JSON-text = ws value ws` read by a deterministic pushdown recognizer: one
step per input byte, with a stack of the containers that are still open. Inside a string literal
every byte from 0x20 up is accepted except an unescaped quote and an unescaped backslash; the
well-formedness of multi-byte UTF-8 sequences is not checked. -/

/-- A container that is still open. -/
inductive Ctx where
  | obj
  | arr
deriving DecidableEq, Repr

/-- The position of the recognizer inside the grammar. -/
inductive Mode where
  /-- A value has to start here. -/
  | value
  /-- Just after `[`: a value or `]`. -/
  | arrFirst
  /-- Just after the opening brace of an object: a member name or the closing brace. -/
  | objFirst
  /-- After `,` inside an object: a member name. -/
  | key
  /-- After a member name: `:`. -/
  | colon
  /-- A value is complete. -/
  | done
  /-- Inside a string literal (`isKey`: it is a member name). -/
  | str (isKey : Bool)
  /-- Inside a string literal, just after a backslash. -/
  | esc (isKey : Bool)
  /-- Inside a `\u` escape with `left + 1` hexadecimal digits still to come. -/
  | hex (isKey : Bool) (left : Fin 4)
  /-- Number: after the leading `-`. -/
  | minus
  /-- Number: the integer part is the single digit `0`. -/
  | zero
  /-- Number: inside an integer part that starts with `1`..`9`. -/
  | int
  /-- Number: just after the decimal point. -/
  | dot
  /-- Number: inside the fraction digits. -/
  | frac
  /-- Number: just after `e` or `E`. -/
  | exp
  /-- Number: after the sign of the exponent. -/
  | expSign
  /-- Number: inside the exponent digits. -/
  | expDigits
  /-- Inside `true`, `false` or `null`, with these bytes still to come. -/
  | lit (rest : List UInt8)
deriving DecidableEq, Repr

/-- A recognizer state. -/
structure PState where
  mode : Mode
  stack : List Ctx
deriving DecidableEq, Repr

/-- JSON whitespace: space, line feed, carriage return, tab. -/
def is_ws (c : UInt8) : Bool := c = 32 || c = 10 || c = 13 || c = 9

/-- An ASCII decimal digit. -/
def is_digit (c : UInt8) : Bool := 48 ≤ c.toNat && c.toNat ≤ 57

/-- An ASCII hexadecimal digit. -/
def is_hex (c : UInt8) : Bool :=
  is_digit c || (65 ≤ c.toNat && c.toNat ≤ 70) || (97 ≤ c.toNat && c.toNat ≤ 102)

/-- The first byte of a value. -/
def start_value (stack : List Ctx) (c : UInt8) : Option PState :=
  if c = 34 then some ⟨.str false, stack⟩
  else if c = 123 then some ⟨.objFirst, .obj :: stack⟩
  else if c = 91 then some ⟨.arrFirst, .arr :: stack⟩
  else if c = 45 then some ⟨.minus, stack⟩
  else if c = 48 then some ⟨.zero, stack⟩
  else if is_digit c then some ⟨.int, stack⟩
  else if c = 116 then some ⟨.lit [114, 117, 101], stack⟩
  else if c = 102 then some ⟨.lit [97, 108, 115, 101], stack⟩
  else if c = 110 then some ⟨.lit [117, 108, 108], stack⟩
  else none

/-- The byte that follows a complete value: whitespace, or a separator or closing bracket that
fits the innermost open container. -/
def after_value (stack : List Ctx) (c : UInt8) : Option PState :=
  if is_ws c then some ⟨.done, stack⟩
  else
    match stack with
    | [] => none
    | .obj :: outer =>
      if c = 44 then some ⟨.key, stack⟩
      else if c = 125 then some ⟨.done, outer⟩
      else none
    | .arr :: outer =>
      if c = 44 then some ⟨.value, stack⟩
      else if c = 93 then some ⟨.done, outer⟩
      else none

/-- One step of the recognizer; `none` rejects. -/
def step (s : PState) (c : UInt8) : Option PState :=
  match s.mode with
  | .value => if is_ws c then some s else start_value s.stack c
  | .arrFirst =>
    if is_ws c then some s
    else if c = 93 then some ⟨.done, s.stack.tail⟩
    else start_value s.stack c
  | .objFirst =>
    if is_ws c then some s
    else if c = 34 then some ⟨.str true, s.stack⟩
    else if c = 125 then some ⟨.done, s.stack.tail⟩
    else none
  | .key =>
    if is_ws c then some s
    else if c = 34 then some ⟨.str true, s.stack⟩
    else none
  | .colon =>
    if is_ws c then some s
    else if c = 58 then some ⟨.value, s.stack⟩
    else none
  | .done => after_value s.stack c
  | .str k =>
    if c = 34 then some ⟨if k then .colon else .done, s.stack⟩
    else if c = 92 then some ⟨.esc k, s.stack⟩
    else if c.toNat < 32 then none
    else some s
  | .esc k =>
    if c = 34 || c = 92 || c = 47 || c = 98 || c = 102 || c = 110 || c = 114 || c = 116 then
      some ⟨.str k, s.stack⟩
    else if c = 117 then some ⟨.hex k 3, s.stack⟩
    else none
  | .hex k left =>
    if is_hex c then
      (if left.val = 0 then some ⟨.str k, s.stack⟩ else some ⟨.hex k (left - 1), s.stack⟩)
    else none
  | .minus =>
    if c = 48 then some ⟨.zero, s.stack⟩
    else if is_digit c then some ⟨.int, s.stack⟩
    else none
  | .zero =>
    if c = 46 then some ⟨.dot, s.stack⟩
    else if c = 101 || c = 69 then some ⟨.exp, s.stack⟩
    else after_value s.stack c
  | .int =>
    if is_digit c then some s
    else if c = 46 then some ⟨.dot, s.stack⟩
    else if c = 101 || c = 69 then some ⟨.exp, s.stack⟩
    else after_value s.stack c
  | .dot => if is_digit c then some ⟨.frac, s.stack⟩ else none
  | .frac =>
    if is_digit c then some s
    else if c = 101 || c = 69 then some ⟨.exp, s.stack⟩
    else after_value s.stack c
  | .exp =>
    if c = 43 || c = 45 then some ⟨.expSign, s.stack⟩
    else if is_digit c then some ⟨.expDigits, s.stack⟩
    else none
  | .expSign => if is_digit c then some ⟨.expDigits, s.stack⟩ else none
  | .expDigits => if is_digit c then some s else after_value s.stack c
  | .lit [] => none
  | .lit [x] => if c = x then some ⟨.done, s.stack⟩ else none
  | .lit (x :: rest) => if c = x then some ⟨.lit rest, s.stack⟩ else none

/-- The recognizer run over a byte string from a given state. -/
def run (s : PState) : List UInt8 → Option PState
  | [] => some s
  | c :: cs =>
    match step s c with
    | some s1 => run s1 cs
    | none => none

/-- Whether the input may end in this mode: after a complete value, or inside a number at a
point where the number read so far is complete. -/
def Mode.final : Mode → Bool
  | .done | .zero | .int | .frac | .expDigits => true
  | _ => false

/-- Whether a byte string is a JSON text. -/
def json_accepts (input : List UInt8) : Bool :=
  match run ⟨.value, []⟩ input with
  | some s => s.mode.final && s.stack.isEmpty
  | none => false

/-- Whether `text` is the given tokens in the given order with nothing but JSON whitespace
before, between and after them. -/
def tokens_match : List (List UInt8) → List UInt8 → Bool
  | [], text => text.all is_ws
  | t :: ts, text =>
    t.isPrefixOf (text.dropWhile is_ws)
      && tokens_match ts ((text.dropWhile is_ws).drop t.length)

/-- A byte that may stand unescaped inside a string literal: not a control character, not a
quote, not a backslash. -/
def plain_byte (c : UInt8) : Bool := 32 ≤ c.toNat && c != 34 && c != 92

/-- A byte that `json_escape` turns into legal string content: not a control character, or
one of the three control characters it escapes (tab, line feed, carriage return). -/
def escapable_byte (c : UInt8) : Bool := 32 ≤ c.toNat || c = 9 || c = 10 || c = 13

/-- Every string of the attribute consists of bytes `json_escape` handles. -/
def attrl.clean (a : attrl) : Bool :=
  a.name.all escapable_byte
    && (match a.resource with
        | some resource => resource.all escapable_byte
        | none => true)
    && a.value.all escapable_byte

/-- Every string of the record and of its attributes consists of bytes `json_escape`
handles. -/
def batch_status.clean (r : batch_status) : Bool :=
  r.name.all escapable_byte && r.attribs.all attrl.clean

/-! ## Sample data and expected documents -/

/-- A record list exercising every branch of the serializer: names and values with quotes,
backslashes, line feeds, carriage returns, tabs and bytes above 0x7f, an attribute with a
resource, one with an empty resource, one without, and a record without attributes. -/
def sample_records : List batch_status :=
  [ { name := bytes "node\"A\\1",
      attribs := [ { name := bytes "state", resource := none, value := bytes "free\n\r\tdown" },
                   { name := bytes "resources_available", resource := some (bytes "mem"),
                     value := bytes "16gb" },
                   { name := [200, 169], resource := some [], value := [] } ] },
    { name := bytes "nodeB", attribs := [] } ]

/-- The two records of the `nodes` scenario: `nodeA` with the attribute `state` = `free` (no
resource) and `nodeB` without attributes. -/
def scenario_records : List batch_status :=
  [ { name := bytes "nodeA",
      attribs := [ { name := bytes "state", resource := none, value := bytes "free" } ] },
    { name := bytes "nodeB", attribs := [] } ]

/-- The tokens of `{"type":"X","count":0,"items":[]}`. -/
def empty_document_tokens (X : List UInt8) : List (List UInt8) :=
  [[123], bytes "\"type\"", [58], 34 :: X ++ [34], [44], bytes "\"count\"", [58], [48], [44],
    bytes "\"items\"", [58], [91], [93], [125]]

/-- The tokens of the compact document of the `nodes` scenario. -/
def scenario_tokens : List (List UInt8) :=
  [[123], bytes "\"type\"", [58], bytes "\"nodes\"", [44], bytes "\"count\"", [58], [50], [44],
    bytes "\"items\"", [58], [91],
    [123], bytes "\"name\"", [58], bytes "\"nodeA\"", [44], bytes "\"attributes\"", [58],
    [123], bytes "\"state\"", [58], bytes "\"free\"", [125], [125], [44],
    [123], bytes "\"name\"", [58], bytes "\"nodeB\"", [44], bytes "\"attributes\"", [58],
    [123], [125], [125],
    [93], [125]]

/-- An environment in which no path can be opened, as when the output directory is
missing. -/
def Env.no_dir : Env :=
  { fopen_ok := fun _ => false, write_ok := fun _ => true, fclose_ok := true }

/-- An environment in which the file opens but every output call and the final `fclose`
fail. -/
def Env.failing : Env :=
  { fopen_ok := fun _ => true, write_ok := fun _ => false, fclose_ok := false }

/-! ## The driver `main` -/

/-- The result of one `pbs_stat*` call: the fetched records, or a fetch error with the value
left in `pbs_errno`. -/
inductive Fetch where
  | records (bs : List batch_status)
  | error (errno : Int)
deriving DecidableEq, Repr

/-- The pointer the C caller receives from a `pbs_stat*` call: the head of the list, which is
NULL both for a fetch error and for a result without records. -/
def Fetch.ptr : Fetch → List batch_status
  | .records bs => bs
  | .error _ => []

/-- Everything outside the program that one run of `main` meets: the PBS library calls (by
connection handle) and, for each category name, the environment in which the file of that
category is written. -/
structure World where
  pbs_connect : List UInt8 → Int
  pbs_errno : Int
  pbs_statserver : Int → Fetch
  pbs_statque : Int → Fetch
  pbs_statnode : Int → Fetch
  pbs_statjob : Int → Fetch
  pbs_statresv : Int → Fetch
  pbs_statrsc : Int → Fetch
  pbs_statsched : Int → Fetch
  files : List UInt8 → Env

/-- An externally visible step of `main`. -/
inductive Event where
  /-- The call `pbs_connect(server)` and the handle it returned. -/
  | connect (server : List UInt8) (con : Int)
  /-- A `pbs_stat*` call, named by the category it fetches. -/
  | fetch (category : List UInt8)
  /-- A call `process_data_json(bs, type, output_dir)` and what it left behind. -/
  | serialize (bs : List batch_status) (type output_dir : List UInt8) (out : Outcome)
  /-- The call `pbs_disconnect(con)`. -/
  | disconnect (con : Int)
deriving DecidableEq, Repr

/-- What one run of `main` leaves behind: the exit status, the steps in order, and the text
written to standard output and standard error. -/
structure Run where
  status : Int
  events : List Event
  stdout : List UInt8
  stderr : List UInt8
deriving DecidableEq, Repr

/-- Source `main(argc, argv)`, with `argc` the length of `argv`; the arguments of the
`pbs_stat*` calls other than the connection handle are constants of the source and are left
out, and `argv[0]` reads as the empty string when there is none. -/
def main (w : World) (argv : List (List UInt8)) : Run :=
  if argv.length ≠ 3 then
    { status := 1, events := [], stdout := [],
      stderr := bytes "Usage: " ++ cstr (argv.headD []) ++ bytes " servername output_directory\n" }
  else
    let server := argv.getD 1 []
    let output_dir := argv.getD 2 []
    let con := w.pbs_connect server
    if con < 0 then
      { status := 1, events := [.connect server con], stdout := [],
        stderr := bytes "Cannot connect to " ++ cstr server ++ bytes ", error "
          ++ fmt_d w.pbs_errno ++ bytes " \n" }
    else
      let bs1 := (w.pbs_statserver con).ptr
      let o1 := process_data_json (w.files (bytes "servers")) bs1 (bytes "servers") output_dir
      let bs2 := (w.pbs_statque con).ptr
      let o2 := process_data_json (w.files (bytes "queues")) bs2 (bytes "queues") output_dir
      let bs3 := (w.pbs_statnode con).ptr
      let o3 := process_data_json (w.files (bytes "nodes")) bs3 (bytes "nodes") output_dir
      let bs4 := (w.pbs_statjob con).ptr
      let o4 := process_data_json (w.files (bytes "jobs")) bs4 (bytes "jobs") output_dir
      let bs5 := (w.pbs_statresv con).ptr
      let o5 := process_data_json (w.files (bytes "reservations")) bs5 (bytes "reservations")
        output_dir
      let bs6 := (w.pbs_statrsc con).ptr
      let o6 := process_data_json (w.files (bytes "resources")) bs6 (bytes "resources")
        output_dir
      let bs7 := (w.pbs_statsched con).ptr
      let o7 := process_data_json (w.files (bytes "schedulers")) bs7 (bytes "schedulers")
        output_dir
      { status := 0,
        events :=
          [.connect server con,
           .fetch (bytes "servers"), .serialize bs1 (bytes "servers") output_dir o1,
           .fetch (bytes "queues"), .serialize bs2 (bytes "queues") output_dir o2,
           .fetch (bytes "nodes"), .serialize bs3 (bytes "nodes") output_dir o3,
           .fetch (bytes "jobs"), .serialize bs4 (bytes "jobs") output_dir o4,
           .fetch (bytes "reservations"), .serialize bs5 (bytes "reservations") output_dir o5,
           .fetch (bytes "resources"), .serialize bs6 (bytes "resources") output_dir o6,
           .fetch (bytes "schedulers"), .serialize bs7 (bytes "schedulers") output_dir o7,
           .disconnect con],
        stdout := bytes "Connected to " ++ cstr server ++ bytes "\n"
          ++ bytes "Getting server info\n" ++ bytes "Getting queues info\n"
          ++ bytes "Getting nodes info\n" ++ bytes "Getting jobs info\n"
          ++ bytes "Getting reservations info\n" ++ bytes "Getting resources info\n"
          ++ bytes "Getting scheduler info\n",
        stderr := o1.stderr ++ o2.stderr ++ o3.stderr ++ o4.stderr ++ o5.stderr ++ o6.stderr
          ++ o7.stderr }

/-- The arguments of the serializer calls among the steps, in order: records, category and
output directory. -/
def serializer_calls : List Event → List (List batch_status × List UInt8 × List UInt8)
  | [] => []
  | .serialize bs type output_dir _ :: rest => (bs, type, output_dir) :: serializer_calls rest
  | _ :: rest => serializer_calls rest

/-- The categories fetched among the steps, in order. -/
def fetches : List Event → List (List UInt8)
  | [] => []
  | .fetch category :: rest => category :: fetches rest
  | _ :: rest => fetches rest

/-- The documents the serializer calls among the steps left in their files, by category, in
order (`none` for a file that was not opened). -/
def documents : List Event → List (List UInt8 × Option (List UInt8))
  | [] => []
  | .serialize _ type _ out :: rest => (type, out.file.map FILE.data) :: documents rest
  | _ :: rest => documents rest

/-- The seven categories in the order `main` processes them. -/
def categories : List (List UInt8) :=
  [bytes "servers", bytes "queues", bytes "nodes", bytes "jobs", bytes "reservations",
    bytes "resources", bytes "schedulers"]

/-- The results of the seven fetches of a run on connection `con`, in the order of
`categories`. -/
def World.fetched (w : World) (con : Int) : List Fetch :=
  [w.pbs_statserver con, w.pbs_statque con, w.pbs_statnode con, w.pbs_statjob con,
    w.pbs_statresv con, w.pbs_statrsc con, w.pbs_statsched con]

/-- A world in which the connection succeeds with handle 3, the node fetch fails with error
15031 and every other category has no records except the servers, and every file call
succeeds. -/
def World.node_fetch_fails : World :=
  { pbs_connect := fun _ => 3, pbs_errno := 0,
    pbs_statserver := fun _ => .records [{ name := bytes "pbs1", attribs := [] }],
    pbs_statque := fun _ => .records [],
    pbs_statnode := fun _ => .error 15031,
    pbs_statjob := fun _ => .records [],
    pbs_statresv := fun _ => .records [],
    pbs_statrsc := fun _ => .records [],
    pbs_statsched := fun _ => .records [],
    files := fun _ => Env.healthy }

/-- A world in which the connection is refused. -/
def World.unreachable : World :=
  { pbs_connect := fun _ => -1, pbs_errno := 15010,
    pbs_statserver := fun _ => .records [],
    pbs_statque := fun _ => .records [],
    pbs_statnode := fun _ => .records [],
    pbs_statjob := fun _ => .records [],
    pbs_statresv := fun _ => .records [],
    pbs_statrsc := fun _ => .records [],
    pbs_statsched := fun _ => .records [],
    files := fun _ => Env.healthy }

/-! ## Separators, escapes and quotes -/

/-- One of the five bytes `json_escape` replaces: quote, backslash, line feed, carriage return,
tab. -/
def is_special (c : UInt8) : Bool := c = 34 || c = 92 || c = 10 || c = 13 || c = 9

/-- The second byte of the five escapes `\"`, `\\`, `\n`, `\r`, `\t`. -/
def is_escape_letter (e : UInt8) : Bool := e = 34 || e = 92 || e = 110 || e = 114 || e = 116

/-- Whether a text reads, left to right, as a sequence of two-byte pairs made of a backslash
and one of the five escape letters, and of single bytes that are none of the five special
bytes. -/
def well_escaped : List UInt8 → Bool
  | [] => true
  | [c] => !is_special c
  | c :: e :: rest =>
    if c = 92 then is_escape_letter e && well_escaped rest
    else !is_special c && well_escaped (e :: rest)

/-- Whether a left-to-right scan that treats a backslash as escaping the byte after it ends
just after an escaping backslash; `esc` tells whether it starts just after one. -/
def scan_end (esc : Bool) : List UInt8 → Bool
  | [] => esc
  | c :: rest => if esc then scan_end false rest else scan_end (c = 92) rest

/-- The number of quote bytes of a text that are not escaped by a backslash in front of them;
`esc` tells whether the scan starts just after an escaping backslash. -/
def unescaped_quotes (esc : Bool) : List UInt8 → Nat
  | [] => 0
  | c :: rest =>
    if esc then unescaped_quotes false rest
    else if c = 92 then unescaped_quotes true rest
    else if c = 34 then unescaped_quotes false rest + 1
    else unescaped_quotes false rest

/-- The number of string delimiters `process_data_json` writes itself: eight in the header
(around `type`, the category, `count` and `items`), six per record (around `name`, the record
name and `attributes`) and four per attribute (around the key and the value). -/
def delimiter_count (bs : List batch_status) : Nat :=
  8 + (bs.map (fun r => 6 + 4 * r.attribs.length)).sum

/-- The scan of a text that starts outside an escape ends outside an escape and meets `n`
unescaped quotes. -/
def scans_to (text : List UInt8) (n : Nat) : Prop :=
  scan_end false text = false ∧ unescaped_quotes false text = n

/-- The content of a string literal read from just after its opening quote: the bytes up to
the first quote that is not escaped by a backslash; `esc` tells whether the reading starts just
after an escaping backslash. -/
def literal_content (esc : Bool) : List UInt8 → List UInt8
  | [] => []
  | c :: rest =>
    if esc then c :: literal_content false rest
    else if c = 92 then c :: literal_content true rest
    else if c = 34 then []
    else c :: literal_content false rest

/-- The field key `process_data_json` emits for an attribute: the content of the first string
literal of the line its attribute loop writes for that attribute, read after the eight bytes
of indentation and the opening quote. -/
def emitted_key (a : attrl) : List UInt8 :=
  literal_content false ((attr_loop Env.healthy [a] FILE.fresh).data.drop 9)

/-! ## Basic facts -/

theorem cstr_of_no_nul (s : List UInt8) (h : (0 : UInt8) ∉ s) : cstr s = s := by
  induction s with
  | nil => rfl
  | cons c p ih =>
    have hc : c ≠ 0 := fun e => h (by simp [e])
    have hp : (0 : UInt8) ∉ p := fun e => h (by simp [e])
    simp [cstr, hc, ih hp]

theorem put_data (env : Env) (hw : ∀ k, env.write_ok k = true) (s : List UInt8) (fp : FILE) :
    (fp.put env s).data = fp.data ++ s := by
  simp [FILE.put, hw]

/-- On a stream without failing calls `json_escape` appends the replacements of the bytes of
the C string, in order. -/
theorem json_escape_data (env : Env) (hw : ∀ k, env.write_ok k = true) (s : List UInt8) :
    ∀ fp : FILE, (json_escape env s fp).data = fp.data ++ (cstr s).flatMap escape_byte := by
  induction s with
  | nil => intro fp; simp [json_escape, cstr]
  | cons c p ih =>
    intro fp
    unfold json_escape
    by_cases h0 : c = 0
    · simp [h0, cstr]
    · have hc : (cstr (c :: p)).flatMap escape_byte
          = escape_byte c ++ (cstr p).flatMap escape_byte := by
        simp [cstr, h0]
      rw [if_neg h0, hc]
      simp only [escape_byte]
      split_ifs <;> simp [ih, fputs, fputc, put_data env hw, bytes]

theorem json_escape_out_eq (s : List UInt8) :
    json_escape_out s = (cstr s).flatMap escape_byte := by
  simp [json_escape_out, json_escape_data Env.healthy (fun _ => rfl), FILE.fresh]

theorem json_escape_data_out (env : Env) (hw : ∀ k, env.write_ok k = true) (s : List UInt8)
    (fp : FILE) : (json_escape env s fp).data = fp.data ++ json_escape_out s := by
  rw [json_escape_data env hw, json_escape_out_eq]

theorem json_escape_out_cons (c : UInt8) (p : List UInt8) :
    json_escape_out (c :: p) = if c = 0 then [] else escape_byte c ++ json_escape_out p := by
  by_cases h : c = 0 <;> simp [json_escape_out_eq, cstr, h]

theorem comma_lines_cons (indent x : List UInt8) (xs : List (List UInt8)) :
    comma_lines indent (x :: xs)
      = indent ++ x ++ (if xs = [] then [] else [44]) ++ 10 :: comma_lines indent xs := by
  cases xs with
  | nil => simp [comma_lines, List.intercalate]
  | cons y ys => simp [comma_lines, List.intercalate, List.intersperse]

theorem attr_loop_data (env : Env) (hw : ∀ k, env.write_ok k = true) (as : List attrl) :
    ∀ fp : FILE, (attr_loop env as fp).data
      = fp.data ++ comma_lines (bytes "        ") (as.map field_text) := by
  induction as with
  | nil => intro fp; simp [attr_loop, comma_lines]
  | cons a next ih =>
    intro fp
    simp only [attr_loop, List.map_cons, comma_lines_cons, field_text, field_key]
    rw [ih]
    cases hres : a.resource <;> by_cases hn : next = [] <;>
      simp [hn, fprintf, fputc, put_data env hw, json_escape_data_out env hw, bytes]

theorem item_loop_data (env : Env) (hw : ∀ k, env.write_ok k = true) (bs : List batch_status) :
    ∀ fp : FILE, (item_loop env bs fp).data
      = fp.data ++ comma_lines (bytes "    ") (bs.map item_text) := by
  induction bs with
  | nil => intro fp; simp [item_loop, comma_lines]
  | cons r next ih =>
    intro fp
    simp only [item_loop, List.map_cons, comma_lines_cons, item_text]
    rw [ih]
    by_cases hn : next = [] <;>
      simp [hn, fprintf, fputc, put_data env hw, json_escape_data_out env hw,
        attr_loop_data env hw, bytes]

theorem process_data_json_filename (env : Env) (bs : List batch_status)
    (type output_dir : List UInt8) :
    (process_data_json env bs type output_dir).filename
      = snprintf 512 (cstr output_dir ++ bytes "/" ++ cstr type ++ bytes ".json") := by
  simp only [process_data_json]
  split <;> rfl

/-- When the file opens and no output call fails, the stream holds `document_text`. -/
theorem process_data_json_data (env : Env) (hw : ∀ k, env.write_ok k = true)
    (bs : List batch_status) (type output_dir : List UInt8)
    (ho : env.fopen_ok (process_data_json env bs type output_dir).filename = true) :
    ((process_data_json env bs type output_dir).file.map FILE.data)
      = some (document_text type (count_loop bs 0) bs) := by
  rw [process_data_json_filename] at ho
  simp only [process_data_json, ho, if_true]
  simp [document_text, fprintf, put_data env hw, item_loop_data env hw, FILE.fresh, bytes]

theorem process_data_json_ret (env : Env) (bs : List batch_status)
    (type output_dir : List UInt8) :
    (process_data_json env bs type output_dir).ret
      = if env.fopen_ok (process_data_json env bs type output_dir).filename then 0 else -1 := by
  rw [process_data_json_filename]
  simp only [process_data_json]
  split <;> rfl

/-- Within the range of `int` the counting loop adds the length of the list. -/
theorem count_loop_eq (bs : List batch_status) : ∀ c : Int, 0 ≤ c →
    c + bs.length ≤ 2147483647 → count_loop bs c = c + bs.length := by
  induction bs with
  | nil => intro c _ _; simp [count_loop]
  | cons r next ih =>
    intro c h0 h1
    simp only [List.length_cons, Nat.cast_add, Nat.cast_one] at h1
    have hw : int_wrap (c + 1) = c + 1 := by
      unfold int_wrap
      omega
    simp only [count_loop, hw, List.length_cons, Nat.cast_add, Nat.cast_one]
    rw [ih (c + 1) (by omega) (by omega)]
    omega

/-! ## The recognizer on the pieces of a document -/

set_option maxRecDepth 100000 in
/-- The recognizer on standard examples: it accepts nested values with every kind of literal,
number form and escape, and rejects trailing commas, unbalanced brackets, unquoted names,
missing separators, numbers with a leading zero, unknown escapes, raw control characters inside
a string, an unterminated string, text after the value, and the empty text. -/
theorem json_accepts_examples :
    json_accepts (bytes " \x7b\"a\": [1, -2.5e+3, 0, true, false, null], \"b\": \x7b\x7d\x7d\n")
      = true
    ∧ json_accepts (bytes "[\"\\\" \\\\ \\/ \\b \\f \\n \\r \\t \\u00e9\", [], [[]]]") = true
    ∧ json_accepts (bytes "[1,]") = false
    ∧ json_accepts (bytes "\x7b\"a\":1,\x7d") = false
    ∧ json_accepts (bytes "[[]") = false
    ∧ json_accepts (bytes "[]]") = false
    ∧ json_accepts (bytes "[\x7d") = false
    ∧ json_accepts (bytes "\x7ba:1\x7d") = false
    ∧ json_accepts (bytes "\x7b\"a\" 1\x7d") = false
    ∧ json_accepts (bytes "[1 2]") = false
    ∧ json_accepts (bytes "01") = false
    ∧ json_accepts (bytes "\"\\x\"") = false
    ∧ json_accepts (bytes "\"a\tb\"") = false
    ∧ json_accepts (bytes "\"abc") = false
    ∧ json_accepts (bytes "\x7b\x7d x") = false
    ∧ json_accepts [] = false := by
  decide

theorem run_append (a b : List UInt8) : ∀ s : PState,
    run s (a ++ b) = (run s a).bind (fun s1 => run s1 b) := by
  induction a with
  | nil => intro s; simp [run]
  | cons c cs ih =>
    intro s
    simp only [List.cons_append, run]
    cases step s c with
    | none => simp
    | some s1 => simpa using ih s1

theorem run_append_of_eq {a b : List UInt8} {s s1 : PState} (h : run s a = some s1) :
    run s (a ++ b) = run s1 b := by
  simp [run_append, h]

theorem run_cons_of_eq {c : UInt8} {cs : List UInt8} {s s1 : PState} (h : step s c = some s1) :
    run s (c :: cs) = run s1 cs := by
  simp [run, h]

theorem run_plain (k : Bool) (stk : List Ctx) (s : List UInt8)
    (h : s.all plain_byte = true) :
    run ⟨.str k, stk⟩ (cstr s) = some ⟨.str k, stk⟩ := by
  induction s with
  | nil => rfl
  | cons c p ih =>
    simp only [List.all_cons, Bool.and_eq_true] at h
    obtain ⟨hc, hp⟩ := h
    simp only [plain_byte, Bool.and_eq_true, decide_eq_true_eq, bne_iff_ne] at hc
    obtain ⟨⟨h1, h2⟩, h3⟩ := hc
    unfold cstr
    split_ifs with h0
    · rfl
    · have hs : step ⟨.str k, stk⟩ c = some ⟨.str k, stk⟩ := by
        simp [step, h2, h3]; omega
      simp [run, hs, ih hp]

theorem run_escaped (k : Bool) (stk : List Ctx) (s : List UInt8)
    (h : s.all escapable_byte = true) :
    run ⟨.str k, stk⟩ (json_escape_out s) = some ⟨.str k, stk⟩ := by
  induction s with
  | nil => rfl
  | cons c p ih =>
    simp only [List.all_cons, Bool.and_eq_true] at h
    obtain ⟨hc, hp⟩ := h
    simp only [escapable_byte, Bool.or_eq_true, decide_eq_true_eq] at hc
    rw [json_escape_out_cons]
    split_ifs with h0
    · rfl
    · unfold escape_byte
      split_ifs with h34 h92 h10 h13 h9
      · subst h34; exact ih hp
      · subst h92; exact ih hp
      · subst h10; exact ih hp
      · subst h13; exact ih hp
      · subst h9; exact ih hp
      · have h32 : 32 ≤ c.toNat := by
          rcases hc with ((hc | hc) | hc) | hc
          · exact hc
          · exact absurd hc h9
          · exact absurd hc h10
          · exact absurd hc h13
        have hs : step ⟨.str k, stk⟩ c = some ⟨.str k, stk⟩ := by
          simp [step, h34, h92]; omega
        simp [run, hs, ih hp]

theorem toNat_ofNat_byte (n : Nat) : (UInt8.ofNat n).toNat = n % 256 := rfl

theorem toNat_digit (n : Nat) : (UInt8.ofNat (48 + n % 10)).toNat = 48 + n % 10 := by
  rw [toNat_ofNat_byte]
  omega

theorem run_int_digits (stk : List Ctx) (ds : List UInt8) (h : ∀ d ∈ ds, is_digit d = true) :
    run ⟨.int, stk⟩ ds = some ⟨.int, stk⟩ := by
  induction ds with
  | nil => rfl
  | cons d ds ih =>
    have hd := h d (by simp)
    have hs : step ⟨.int, stk⟩ d = some ⟨.int, stk⟩ := by simp [step, hd]
    simp [run, hs, ih (fun x hx => h x (by simp [hx]))]

/-- The digits of a positive number: a digit `1`..`9` followed by digits. -/
theorem utoa_pos (fuel : Nat) : ∀ (n : Nat) (acc : List UInt8), 0 < n → n < fuel →
    ∃ d ds, utoa fuel n acc = d :: (ds ++ acc) ∧ 49 ≤ d.toNat ∧ d.toNat ≤ 57
      ∧ ∀ x ∈ ds, is_digit x = true := by
  induction fuel with
  | zero => intro n acc _ h; omega
  | succ fuel ih =>
    intro n acc hn hf
    unfold utoa
    split_ifs with h10
    · refine ⟨UInt8.ofNat (48 + n % 10), [], by simp, ?_, ?_, by simp⟩
      · rw [toNat_digit]; omega
      · rw [toNat_digit]; omega
    · obtain ⟨d, ds, he, h1, h2, h3⟩ := ih (n / 10) (UInt8.ofNat (48 + n % 10) :: acc)
        (by omega) (by omega)
      refine ⟨d, ds ++ [UInt8.ofNat (48 + n % 10)], by simp [he], h1, h2, ?_⟩
      intro x hx
      rcases List.mem_append.mp hx with hx | hx
      · exact h3 x hx
      · have hx1 : x = UInt8.ofNat (48 + n % 10) := by simpa using hx
        subst hx1
        simp [is_digit, toNat_digit]
        omega

theorem run_utoa (stk : List Ctx) (m : Mode) (hm : m = .value ∨ m = .minus) (n : Nat) :
    ∃ m1, run ⟨m, stk⟩ (utoa (n + 1) n []) = some ⟨m1, stk⟩ ∧ (m1 = .zero ∨ m1 = .int) := by
  rcases Nat.eq_zero_or_pos n with h0 | hpos
  · subst h0
    refine ⟨.zero, ?_, Or.inl rfl⟩
    rcases hm with rfl | rfl <;> rfl
  · obtain ⟨d, ds, he, h1, h2, h3⟩ := utoa_pos (n + 1) n [] hpos (by omega)
    refine ⟨.int, ?_, Or.inr rfl⟩
    rw [he, List.append_nil]
    have hne : ∀ k : Nat, k < 49 → d ≠ UInt8.ofNat k := by
      intro k hk e
      rw [e, toNat_ofNat_byte] at h1
      omega
    have hdig : is_digit d = true := by simp [is_digit]; omega
    have hs : step ⟨m, stk⟩ d = some ⟨.int, stk⟩ := by
      have e32 := hne 32 (by decide)
      have e10 := hne 10 (by decide)
      have e13 := hne 13 (by decide)
      have e9 := hne 9 (by decide)
      have e34 := hne 34 (by decide)
      have e45 := hne 45 (by decide)
      have e48 := hne 48 (by decide)
      have e91 : d ≠ 91 := by rintro rfl; revert h2; decide
      have e123 : d ≠ 123 := by rintro rfl; revert h2; decide
      rcases hm with rfl | rfl
      · simp [step, is_ws, start_value, hdig]
        simp_all
      · simp [step, hdig]
        simp_all
    simp [run, hs, run_int_digits stk ds h3]

theorem run_fmt_d (stk : List Ctx) (i : Int) :
    ∃ m1, run ⟨.value, stk⟩ (fmt_d i) = some ⟨m1, stk⟩ ∧ (m1 = .zero ∨ m1 = .int) := by
  unfold fmt_d
  split_ifs with hneg
  · obtain ⟨m1, h1, h2⟩ := run_utoa stk .minus (Or.inr rfl) i.natAbs
    exact ⟨m1, by simpa [run, step, is_ws, start_value] using h1, h2⟩
  · exact run_utoa stk .value (Or.inl rfl) i.natAbs

theorem run_field_key (stk : List Ctx) (a : attrl) (ha : a.clean = true) :
    run ⟨.str true, stk⟩ (field_key a) = some ⟨.str true, stk⟩ := by
  simp only [attrl.clean, Bool.and_eq_true] at ha
  obtain ⟨⟨hn, hr⟩, _⟩ := ha
  unfold field_key
  cases hres : a.resource with
  | none => exact run_escaped true stk a.name hn
  | some resource =>
    rw [hres] at hr
    have h1 : step ⟨.str true, stk⟩ 46 = some ⟨.str true, stk⟩ := rfl
    simp only []
    rw [run_append_of_eq (run_escaped true stk a.name hn), run_cons_of_eq h1]
    exact run_escaped true stk resource hr

theorem run_field (stk : List Ctx) (m : Mode) (hm : m = .objFirst ∨ m = .key) (a : attrl)
    (ha : a.clean = true) :
    run ⟨m, .obj :: stk⟩ (bytes "        " ++ field_text a) = some ⟨.done, .obj :: stk⟩ := by
  have h1 : run ⟨m, .obj :: stk⟩ (bytes "        ") = some ⟨m, .obj :: stk⟩ := by
    rcases hm with rfl | rfl <;> rfl
  have h2 : step ⟨m, .obj :: stk⟩ 34 = some ⟨.str true, .obj :: stk⟩ := by
    rcases hm with rfl | rfl <;> rfl
  have h3 := run_field_key (.obj :: stk) a ha
  have h4 : run ⟨.str true, .obj :: stk⟩ (bytes "\": \"") = some ⟨.str false, .obj :: stk⟩ := rfl
  have h5 : run ⟨.str false, .obj :: stk⟩ (json_escape_out a.value) = some ⟨.str false, .obj :: stk⟩ := by
    simp only [attrl.clean, Bool.and_eq_true] at ha
    exact run_escaped false (.obj :: stk) a.value ha.2
  have h6 : run ⟨.str false, .obj :: stk⟩ [34] = some ⟨.done, .obj :: stk⟩ := rfl
  unfold field_text
  rw [run_append_of_eq h1]
  simp only [List.cons_append, List.append_assoc]
  rw [run_cons_of_eq h2, run_append_of_eq h3, run_append_of_eq h4, run_append_of_eq h5, h6]

theorem run_attrs (stk : List Ctx) (as : List attrl) :
    as ≠ [] → as.all attrl.clean = true → ∀ m : Mode, m = .objFirst ∨ m = .key →
      run ⟨m, .obj :: stk⟩ (comma_lines (bytes "        ") (as.map field_text))
        = some ⟨.done, .obj :: stk⟩ := by
  induction as with
  | nil => intro h; exact absurd rfl h
  | cons a next ih =>
    intro _ hc m hm
    simp only [List.all_cons, Bool.and_eq_true] at hc
    have hf := run_field stk m hm a hc.1
    rw [List.map_cons, comma_lines_cons]
    by_cases hn : next = []
    · subst hn
      simp only [List.map_nil, if_true, List.append_nil, comma_lines]
      rw [run_append_of_eq hf]
      rfl
    · have h1 : step ⟨.done, .obj :: stk⟩ 44 = some ⟨.key, .obj :: stk⟩ := rfl
      have h2 : step ⟨.key, .obj :: stk⟩ 10 = some ⟨.key, .obj :: stk⟩ := rfl
      simp only [List.map_eq_nil_iff, hn, if_false, List.append_assoc, List.cons_append,
        List.nil_append]
      rw [← List.append_assoc, run_append_of_eq hf, run_cons_of_eq h1, run_cons_of_eq h2]
      exact ih hn hc.2 .key (Or.inr rfl)

theorem run_item (stk : List Ctx) (m : Mode) (hm : m = .arrFirst ∨ m = .value)
    (r : batch_status) (hr : r.clean = true) :
    run ⟨m, .arr :: stk⟩ (bytes "    " ++ item_text r) = some ⟨.done, .arr :: stk⟩ := by
  simp only [batch_status.clean, Bool.and_eq_true] at hr
  have h0 : run ⟨m, .arr :: stk⟩ (bytes "    ") = some ⟨m, .arr :: stk⟩ := by
    rcases hm with rfl | rfl <;> rfl
  have h1 : run ⟨m, .arr :: stk⟩ (bytes "\x7b\n      \"name\": \"")
      = some ⟨.str false, .obj :: .arr :: stk⟩ := by
    rcases hm with rfl | rfl <;> rfl
  have h2 := run_escaped false (.obj :: .arr :: stk) r.name hr.1
  have h3 : run ⟨.str false, .obj :: .arr :: stk⟩ (bytes "\",\n      \"attributes\": \x7b\n")
      = some ⟨.objFirst, .obj :: .obj :: .arr :: stk⟩ := rfl
  have h5a : run ⟨.objFirst, .obj :: .obj :: .arr :: stk⟩ (bytes "      \x7d\n    \x7d")
      = some ⟨.done, .arr :: stk⟩ := rfl
  have h5b : run ⟨.done, .obj :: .obj :: .arr :: stk⟩ (bytes "      \x7d\n    \x7d")
      = some ⟨.done, .arr :: stk⟩ := rfl
  unfold item_text
  simp only [List.append_assoc]
  rw [run_append_of_eq h0, run_append_of_eq h1, run_append_of_eq h2, run_append_of_eq h3]
  by_cases ha : r.attribs = []
  · rw [ha]
    exact h5a
  · rw [run_append_of_eq (run_attrs (.obj :: .arr :: stk) r.attribs ha hr.2 .objFirst
      (Or.inl rfl))]
    exact h5b

theorem run_items (stk : List Ctx) (bs : List batch_status) :
    bs ≠ [] → bs.all batch_status.clean = true → ∀ m : Mode, m = .arrFirst ∨ m = .value →
      run ⟨m, .arr :: stk⟩ (comma_lines (bytes "    ") (bs.map item_text))
        = some ⟨.done, .arr :: stk⟩ := by
  induction bs with
  | nil => intro h; exact absurd rfl h
  | cons r next ih =>
    intro _ hc m hm
    simp only [List.all_cons, Bool.and_eq_true] at hc
    have hf := run_item stk m hm r hc.1
    rw [List.map_cons, comma_lines_cons]
    by_cases hn : next = []
    · subst hn
      simp only [List.map_nil, if_true, List.append_nil, comma_lines]
      rw [run_append_of_eq hf]
      rfl
    · have h1 : step ⟨.done, .arr :: stk⟩ 44 = some ⟨.value, .arr :: stk⟩ := rfl
      have h2 : step ⟨.value, .arr :: stk⟩ 10 = some ⟨.value, .arr :: stk⟩ := rfl
      simp only [List.map_eq_nil_iff, hn, if_false, List.append_assoc, List.cons_append,
        List.nil_append]
      rw [← List.append_assoc, run_append_of_eq hf, run_cons_of_eq h1, run_cons_of_eq h2]
      exact ih hn hc.2 .value (Or.inr rfl)

/-- The recognizer accepts every document whose category consists of plain bytes and whose
records are clean, whatever integer is printed as the count. -/
theorem json_accepts_document (type : List UInt8) (count : Int) (bs : List batch_status)
    (ht : type.all plain_byte = true) (hb : bs.all batch_status.clean = true) :
    json_accepts (document_text type count bs) = true := by
  have h1 : run ⟨.value, []⟩ (bytes "\x7b\n  \"type\": \"") = some ⟨.str false, [.obj]⟩ := rfl
  have h2 := run_plain false [.obj] type ht
  have h3 : run ⟨.str false, [.obj]⟩ (bytes "\",\n  \"count\": ") = some ⟨.value, [.obj]⟩ := rfl
  obtain ⟨m1, h4, hm1⟩ := run_fmt_d [.obj] count
  have h5 : run ⟨m1, [.obj]⟩ (bytes ",\n  \"items\": [\n") = some ⟨.arrFirst, [.arr, .obj]⟩ := by
    rcases hm1 with rfl | rfl <;> rfl
  have h7a : run ⟨.arrFirst, [.arr, .obj]⟩ (bytes "  ]\n\x7d\n") = some ⟨.done, []⟩ := rfl
  have h7b : run ⟨.done, [.arr, .obj]⟩ (bytes "  ]\n\x7d\n") = some ⟨.done, []⟩ := rfl
  have hrun : run ⟨.value, []⟩ (document_text type count bs) = some ⟨.done, []⟩ := by
    unfold document_text
    simp only [List.append_assoc]
    rw [run_append_of_eq h1, run_append_of_eq h2, run_append_of_eq h3, run_append_of_eq h4,
      run_append_of_eq h5]
    by_cases hn : bs = []
    · rw [hn]
      exact h7a
    · rw [run_append_of_eq (run_items [.obj] bs hn hb .arrFirst (Or.inl rfl))]
      exact h7b
  simp [json_accepts, hrun, Mode.final]

/-! ## Decoding and reading back -/

theorem foldl_utoa (fuel : Nat) : ∀ (n : Nat) (acc : List UInt8), n < fuel →
    (utoa fuel n acc).foldl (fun a d => 10 * a + (d.toNat - 48)) 0
      = acc.foldl (fun a d => 10 * a + (d.toNat - 48)) n := by
  induction fuel with
  | zero => intro n acc h; omega
  | succ fuel ih =>
    intro n acc hf
    unfold utoa
    split_ifs with h10
    · simp only [List.foldl_cons, toNat_digit]
      congr 1
      omega
    · rw [ih (n / 10) _ (by omega)]
      simp only [List.foldl_cons, toNat_digit]
      congr 1
      omega

theorem read_nat_fmt_d (n : Nat) : read_nat (fmt_d (n : Int)) = n := by
  have h : ¬ ((n : Int) < 0) := by omega
  simp only [fmt_d, h, if_false, Int.natAbs_ofNat, read_nat]
  rw [foldl_utoa (n + 1) n [] (by omega)]
  rfl

theorem json_unescape_plain (c : UInt8) (l : List UInt8) (h : c ≠ 92) :
    json_unescape (c :: l) = c :: json_unescape l := by
  cases l with
  | nil => simp [json_unescape]
  | cons e rest => simp [json_unescape, h]

theorem json_unescape_out (s : List UInt8) : json_unescape (json_escape_out s) = cstr s := by
  induction s with
  | nil => rfl
  | cons c p ih =>
    rw [json_escape_out_cons]
    by_cases h0 : c = 0
    · simp [h0, cstr, json_unescape]
    · simp only [h0, if_false, cstr]
      unfold escape_byte
      split_ifs with h34 h92 h10 h13 h9
      · subst h34; simp [json_unescape, decode_escape, ih]
      · subst h92; simp [json_unescape, decode_escape, ih]
      · subst h10; simp [json_unescape, decode_escape, ih]
      · subst h13; simp [json_unescape, decode_escape, ih]
      · subst h9; simp [json_unescape, decode_escape, ih]
      · simp [json_unescape_plain c _ h92, ih]

theorem json_escape_out_plain (s : List UInt8) (h0 : (0 : UInt8) ∉ s)
    (h : ∀ c ∈ s, c ≠ 34 ∧ c ≠ 92 ∧ c ≠ 10 ∧ c ≠ 13 ∧ c ≠ 9) : json_escape_out s = s := by
  induction s with
  | nil => rfl
  | cons c p ih =>
    have hc : c ≠ 0 := fun e => h0 (by simp [e])
    have hp : (0 : UInt8) ∉ p := fun e => h0 (by simp [e])
    obtain ⟨h1, h2, h3, h4, h5⟩ := h c (by simp)
    rw [json_escape_out_cons, if_neg hc, ih hp (fun x hx => h x (by simp [hx]))]
    simp [escape_byte, h1, h2, h3, h4, h5]

/-! ## Token layout -/

theorem dropWhile_ws_append (w rest : List UInt8) (hw : w.all is_ws = true) :
    (w ++ rest).dropWhile is_ws = rest.dropWhile is_ws := by
  induction w with
  | nil => rfl
  | cons c cs ih =>
    simp only [List.all_cons, Bool.and_eq_true] at hw
    simp [List.dropWhile, hw.1, ih hw.2]

theorem isPrefixOf_append_self (t rest : List UInt8) : t.isPrefixOf (t ++ rest) = true := by
  induction t with
  | nil => simp
  | cons c cs ih => simp [List.isPrefixOf, ih]

/-- Matching one token: whitespace `w`, then the token `t` (which starts with a byte that is
not whitespace), then the rest. -/
theorem tokens_match_cons (w : List UInt8) (c : UInt8) (t rest : List UInt8)
    (ts : List (List UInt8)) (hw : w.all is_ws = true) (hc : is_ws c = false) :
    tokens_match ((c :: t) :: ts) (w ++ (c :: t) ++ rest) = tokens_match ts rest := by
  have hd : (w ++ (c :: t) ++ rest).dropWhile is_ws = (c :: t) ++ rest := by
    rw [List.append_assoc, dropWhile_ws_append w _ hw]
    simp [List.dropWhile, hc]
  simp only [tokens_match, hd, isPrefixOf_append_self, Bool.true_and]
  congr 1
  simp

/-- A text laid out as whitespace-token pairs followed by trailing whitespace matches its
tokens. -/
theorem tokens_match_layout (pairs : List (List UInt8 × List UInt8)) (tail : List UInt8)
    (hp : ∀ p ∈ pairs, p.1.all is_ws = true ∧ ∃ c t, p.2 = c :: t ∧ is_ws c = false)
    (ht : tail.all is_ws = true) :
    tokens_match (pairs.map Prod.snd) (pairs.foldr (fun p acc => p.1 ++ p.2 ++ acc) tail)
      = true := by
  induction pairs with
  | nil => simpa [tokens_match] using ht
  | cons p ps ih =>
    obtain ⟨hw, c, t, he, hc⟩ := hp p (by simp)
    simp only [List.map_cons, List.foldr_cons, he]
    rw [tokens_match_cons _ c t _ _ hw hc]
    exact ih (fun q hq => hp q (by simp [hq]))

theorem tokens_match_empty_document (X : List UInt8) :
    tokens_match (empty_document_tokens X)
      (bytes "\x7b\n  \"type\": \"" ++ X ++ bytes "\",\n  \"count\": " ++ fmt_d 0
        ++ bytes ",\n  \"items\": [\n" ++ bytes "  ]\n\x7d\n") = true := by
  have h := tokens_match_layout
    [([], [123]), (bytes "\n  ", bytes "\"type\""), ([], [58]), ([32], 34 :: X ++ [34]),
      ([], [44]), (bytes "\n  ", bytes "\"count\""), ([], [58]), ([32], [48]), ([], [44]),
      (bytes "\n  ", bytes "\"items\""), ([], [58]), ([32], [91]), (bytes "\n  ", [93]),
      ([10], [125])] [10]
    (by
      intro p hp
      simp only [List.mem_cons, List.mem_singleton, List.not_mem_nil, or_false] at hp
      rcases hp with h | h | h | h | h | h | h | h | h | h | h | h | h | h <;> subst h <;>
        exact ⟨rfl, _, _, rfl, rfl⟩)
    (by decide)
  have e : (bytes "\x7b\n  \"type\": \"" ++ X ++ bytes "\",\n  \"count\": " ++ fmt_d 0
        ++ bytes ",\n  \"items\": [\n" ++ bytes "  ]\n\x7d\n")
      = List.foldr (fun (p : List UInt8 × List UInt8) acc => p.1 ++ p.2 ++ acc) [10]
        [([], [123]), (bytes "\n  ", bytes "\"type\""), ([], [58]), ([32], 34 :: X ++ [34]),
      ([], [44]), (bytes "\n  ", bytes "\"count\""), ([], [58]), ([32], [48]), ([], [44]),
      (bytes "\n  ", bytes "\"items\""), ([], [58]), ([32], [91]), (bytes "\n  ", [93]),
      ([10], [125])] := by
    simp [bytes, fmt_d, utoa]
  rw [e]
  exact h

/-! ## The claims -/

set_option maxRecDepth 100000 in
/-- C1, counterexample: the document is not well-formed JSON for every input. With no records
and the category string `"`, or the category string made of one backslash, the recognizer
rejects the document (the category is printed unescaped); and with the category `nodes` and
one record whose attribute value is the single control byte 0x07 it rejects it as well (the
byte is written unescaped into a string literal). -/
theorem process_data_json_not_always_json :
    (process_data_json Env.healthy [] (bytes "\"") (bytes "out")).file.map
        (fun fp => json_accepts fp.data) = some false
    ∧ (process_data_json Env.healthy [] (bytes "\\") (bytes "out")).file.map
        (fun fp => json_accepts fp.data) = some false
    ∧ (process_data_json Env.healthy
        [{ name := bytes "node1",
           attribs := [{ name := bytes "comment", resource := none, value := [7] }] }]
        (bytes "nodes") (bytes "out")).file.map (fun fp => json_accepts fp.data) = some false := by
  refine ⟨?_, ?_, ?_⟩ <;> decide

/-- C1, amended: when the file opens and no output call fails, the document is accepted by the
JSON recognizer for every record list (empty lists and records without attributes included),
provided the category consists of bytes from 0x20 up other than quote and backslash, and every
record name, attribute name, resource and value consists of bytes from 0x20 up, tabs, line
feeds and carriage returns. -/
theorem process_data_json_well_formed (env : Env) (bs : List batch_status)
    (type output_dir : List UInt8)
    (hw : ∀ k, env.write_ok k = true)
    (ho : env.fopen_ok (process_data_json env bs type output_dir).filename = true)
    (ht : type.all plain_byte = true) (hb : bs.all batch_status.clean = true) :
    (process_data_json env bs type output_dir).file.map (fun fp => json_accepts fp.data)
      = some true := by
  have h := process_data_json_data env hw bs type output_dir ho
  cases hf : (process_data_json env bs type output_dir).file with
  | none => simp [hf] at h
  | some fp =>
    rw [hf] at h
    simp only [Option.map_some', Option.some.injEq] at h
    simp [h, json_accepts_document type _ bs ht hb]

set_option maxRecDepth 100000 in
/-- C1, witness: the amended statement at the sample records and the category `nodes`. -/
theorem process_data_json_well_formed_witness :
    (∀ k, Env.healthy.write_ok k = true)
    ∧ Env.healthy.fopen_ok
        (process_data_json Env.healthy sample_records (bytes "nodes") (bytes "out")).filename
          = true
    ∧ (bytes "nodes").all plain_byte = true
    ∧ sample_records.all batch_status.clean = true
    ∧ (process_data_json Env.healthy sample_records (bytes "nodes") (bytes "out")).file.map
        (fun fp => json_accepts fp.data) = some true :=
  ⟨fun _ => rfl, rfl, by decide, by decide,
    process_data_json_well_formed Env.healthy sample_records (bytes "nodes") (bytes "out")
      (fun _ => rfl) rfl (by decide) (by decide)⟩

/-- C2: on a stream without failing calls, the bytes `json_escape` writes for a string `s`
without NUL byte are the concatenation, in order, of the replacements of its bytes, where the
replacement of `"` is `\"`, of backslash `\\`, of line feed `\n`, of carriage return `\r`, of
tab `\t`, and every other byte is its own replacement. -/
theorem json_escape_writes_replacements (env : Env) (s : List UInt8) (fp : FILE)
    (hw : ∀ k, env.write_ok k = true) (h0 : (0 : UInt8) ∉ s) :
    (json_escape env s fp).data = fp.data ++ s.flatMap escape_byte
    ∧ escape_byte 34 = [92, 34] ∧ escape_byte 92 = [92, 92] ∧ escape_byte 10 = [92, 110]
    ∧ escape_byte 13 = [92, 114] ∧ escape_byte 9 = [92, 116]
    ∧ ∀ b : UInt8, b ≠ 34 → b ≠ 92 → b ≠ 10 → b ≠ 13 → b ≠ 9 → escape_byte b = [b] := by
  refine ⟨?_, rfl, rfl, rfl, rfl, rfl, ?_⟩
  · rw [json_escape_data env hw, cstr_of_no_nul s h0]
  · intro b h1 h2 h3 h4 h5
    simp [escape_byte, h1, h2, h3, h4, h5]

/-- C2, witness: the string `a"b\c`, line feed, carriage return, tab, 0x01, 0xff. -/
theorem json_escape_writes_replacements_witness :
    (∀ k, Env.healthy.write_ok k = true)
    ∧ (0 : UInt8) ∉ bytes "a\"b\\c\n\r\t" ++ [1, 255]
    ∧ (json_escape Env.healthy (bytes "a\"b\\c\n\r\t" ++ [1, 255]) FILE.fresh).data
        = bytes "a\\\"b\\\\c\\n\\r\\t" ++ [1, 255] :=
  ⟨fun _ => rfl, by decide,
    (json_escape_writes_replacements Env.healthy (bytes "a\"b\\c\n\r\t" ++ [1, 255]) FILE.fresh
      (fun _ => rfl) (by decide)).1⟩

/-- C3: when the file opens and no output call fails, for a record list of length n (within
the range of the C `int` that counts it) the number printed in the `count` field is n, and the
`items` array that follows holds exactly n item objects, one per record. -/
theorem count_field_is_number_of_records (env : Env) (bs : List batch_status)
    (type output_dir : List UInt8)
    (hw : ∀ k, env.write_ok k = true)
    (ho : env.fopen_ok (process_data_json env bs type output_dir).filename = true)
    (hn : bs.length ≤ 2147483647) :
    (process_data_json env bs type output_dir).file.map FILE.data
      = some (bytes "\x7b\n  \"type\": \"" ++ cstr type ++ bytes "\",\n  \"count\": "
          ++ fmt_d (bs.length : Int) ++ bytes ",\n  \"items\": [\n"
          ++ comma_lines (bytes "    ") (bs.map item_text) ++ bytes "  ]\n\x7d\n")
    ∧ read_nat (fmt_d (bs.length : Int)) = bs.length
    ∧ (bs.map item_text).length = bs.length := by
  refine ⟨?_, read_nat_fmt_d _, List.length_map _ _⟩
  rw [process_data_json_data env hw bs type output_dir ho, document_text,
    count_loop_eq bs 0 (le_refl 0) (by omega)]
  simp

set_option maxRecDepth 100000 in
/-- C3, witness: the sample list of two records prints `count` 2. -/
theorem count_field_is_number_of_records_witness :
    (∀ k, Env.healthy.write_ok k = true)
    ∧ Env.healthy.fopen_ok
        (process_data_json Env.healthy sample_records (bytes "nodes") (bytes "out")).filename
          = true
    ∧ sample_records.length ≤ 2147483647
    ∧ fmt_d (sample_records.length : Int) = bytes "2"
    ∧ read_nat (fmt_d (sample_records.length : Int)) = 2 :=
  ⟨fun _ => rfl, rfl, by decide, by decide,
    (count_field_is_number_of_records Env.healthy sample_records (bytes "nodes") (bytes "out")
      (fun _ => rfl) rfl (by decide)).2.1⟩

/-- C4: on a stream without failing calls, decoding what `json_escape` writes for a string `s`
(without NUL byte) with the five escapes gives back `s`; and when `s` has none of the five
special bytes, `json_escape` writes `s` unchanged. -/
theorem json_escape_round_trip (env : Env) (s : List UInt8) (fp : FILE)
    (hw : ∀ k, env.write_ok k = true) (h0 : (0 : UInt8) ∉ s) :
    (json_escape env s fp).data = fp.data ++ json_escape_out s
    ∧ json_unescape (json_escape_out s) = s
    ∧ ((∀ c ∈ s, c ≠ 34 ∧ c ≠ 92 ∧ c ≠ 10 ∧ c ≠ 13 ∧ c ≠ 9) → json_escape_out s = s) := by
  refine ⟨json_escape_data_out env hw s fp, ?_, json_escape_out_plain s h0⟩
  rw [json_unescape_out, cstr_of_no_nul s h0]

/-- C4, witness: a string with all five special bytes, and one with none of them. -/
theorem json_escape_round_trip_witness :
    (∀ k, Env.healthy.write_ok k = true)
    ∧ (0 : UInt8) ∉ bytes "a\"b\\c\n\r\t\\n"
    ∧ json_unescape (json_escape_out (bytes "a\"b\\c\n\r\t\\n")) = bytes "a\"b\\c\n\r\t\\n"
    ∧ json_escape_out (bytes "16gb") = bytes "16gb" :=
  ⟨fun _ => rfl, by decide,
    (json_escape_round_trip Env.healthy (bytes "a\"b\\c\n\r\t\\n") FILE.fresh (fun _ => rfl)
      (by decide)).2.1,
    by decide⟩

/-- C5: when the file opens and no output call fails, the `items` array lists one item object
per record in the order of the record list, and the i-th item object consists of the escaped
name of the i-th record and of the fields of the attributes of that record alone, one field
per attribute in the order of its attribute list. -/
theorem items_follow_input_order (env : Env) (bs : List batch_status)
    (type output_dir : List UInt8)
    (hw : ∀ k, env.write_ok k = true)
    (ho : env.fopen_ok (process_data_json env bs type output_dir).filename = true) :
    (process_data_json env bs type output_dir).file.map FILE.data
      = some (bytes "\x7b\n  \"type\": \"" ++ cstr type ++ bytes "\",\n  \"count\": "
          ++ fmt_d (count_loop bs 0) ++ bytes ",\n  \"items\": [\n"
          ++ comma_lines (bytes "    ") (bs.map item_text) ++ bytes "  ]\n\x7d\n")
    ∧ (∀ i (hi : i < bs.length),
        (bs.map item_text)[i]? = some
          (bytes "\x7b\n      \"name\": \"" ++ json_escape_out bs[i].name
            ++ bytes "\",\n      \"attributes\": \x7b\n"
            ++ comma_lines (bytes "        ") (bs[i].attribs.map field_text)
            ++ bytes "      \x7d\n    \x7d")
        ∧ ∀ j (hj : j < bs[i].attribs.length),
            (bs[i].attribs.map field_text)[j]? = some (field_text bs[i].attribs[j])) := by
  refine ⟨?_, ?_⟩
  · rw [process_data_json_data env hw bs type output_dir ho, document_text]
  · intro i hi
    refine ⟨?_, ?_⟩
    · simp [List.getElem?_map, List.getElem?_eq_getElem hi, item_text]
    · intro j hj
      simp [List.getElem?_map, List.getElem?_eq_getElem hj]

set_option maxRecDepth 100000 in
/-- C5, witness: the document of the sample records. -/
theorem items_follow_input_order_witness :
    (∀ k, Env.healthy.write_ok k = true)
    ∧ Env.healthy.fopen_ok
        (process_data_json Env.healthy sample_records (bytes "nodes") (bytes "out")).filename
          = true
    ∧ (process_data_json Env.healthy sample_records (bytes "nodes") (bytes "out")).file.map
        FILE.data
      = some (bytes "\x7b\n  \"type\": \"nodes\",\n  \"count\": 2,\n  \"items\": [\n"
          ++ comma_lines (bytes "    ") (sample_records.map item_text) ++ bytes "  ]\n\x7d\n") :=
  ⟨fun _ => rfl, rfl,
    (items_follow_input_order Env.healthy sample_records (bytes "nodes") (bytes "out")
      (fun _ => rfl) rfl).1.trans (by decide)⟩

set_option maxRecDepth 100000 in
/-- C6: on a stream without failing calls, the line written for an attribute holds the field
whose key is the escaped name, followed by `.` and the escaped resource when a resource is
present and by nothing when it is absent, and whose value is the escaped value; and the
document of a record `node1` with the attribute named `resources_available`, resource `mem`,
value `16gb` holds the field `"resources_available.mem": "16gb"`. -/
theorem attribute_field_key_and_value (env : Env) (a : attrl) (next : List attrl) (fp : FILE)
    (hw : ∀ k, env.write_ok k = true) :
    (attr_loop env (a :: next) fp).data
      = fp.data ++ bytes "        \""
          ++ (json_escape_out a.name ++
              match a.resource with
              | some resource => 46 :: json_escape_out resource
              | none => [])
          ++ bytes "\": \"" ++ json_escape_out a.value ++ bytes "\""
          ++ (if next = [] then [] else bytes ",") ++ bytes "\n"
          ++ comma_lines (bytes "        ") (next.map field_text)
    ∧ (process_data_json Env.healthy
        [{ name := bytes "node1",
           attribs := [{ name := bytes "resources_available", resource := some (bytes "mem"),
                         value := bytes "16gb" }] }]
        (bytes "nodes") (bytes "out")).file.map FILE.data
      = some (bytes ("\x7b\n  \"type\": \"nodes\",\n  \"count\": 1,\n  \"items\": [\n"
          ++ "    \x7b\n      \"name\": \"node1\",\n      \"attributes\": \x7b\n"
          ++ "        \"resources_available.mem\": \"16gb\"\n"
          ++ "      \x7d\n    \x7d\n  ]\n\x7d\n")) := by
  refine ⟨?_, by decide⟩
  rw [attr_loop_data env hw, List.map_cons, comma_lines_cons]
  cases hres : a.resource <;> by_cases hn : next = [] <;>
    simp [hn, field_text, field_key, hres, bytes]

set_option maxRecDepth 100000 in
/-- C6, witness: the lines written for an attribute with a resource followed by one
without. -/
theorem attribute_field_key_and_value_witness :
    (∀ k, Env.healthy.write_ok k = true)
    ∧ (attr_loop Env.healthy
        [{ name := bytes "resources_available", resource := some (bytes "mem"),
           value := bytes "16gb" },
         { name := bytes "state", resource := none, value := bytes "free" }] FILE.fresh).data
      = bytes "        \"resources_available.mem\": \"16gb\",\n        \"state\": \"free\"\n" :=
  ⟨fun _ => rfl,
    (attribute_field_key_and_value Env.healthy
      { name := bytes "resources_available", resource := some (bytes "mem"),
        value := bytes "16gb" }
      [{ name := bytes "state", resource := none, value := bytes "free" }] FILE.fresh
      (fun _ => rfl)).1.trans (by decide)⟩

/-- C7: when the file opens and no output call fails, the document of the empty record list
for a category `X` (without NUL byte) is the tokens of `{"type":"X","count":0,"items":[]}` in
that order with nothing but whitespace between them. -/
theorem empty_record_list_document (env : Env) (X output_dir : List UInt8)
    (hw : ∀ k, env.write_ok k = true)
    (ho : env.fopen_ok (process_data_json env [] X output_dir).filename = true)
    (h0 : (0 : UInt8) ∉ X) :
    (process_data_json env [] X output_dir).file.map
        (fun fp => tokens_match (empty_document_tokens X) fp.data) = some true
    ∧ (empty_document_tokens X).flatten
        = bytes "\x7b\"type\":\"" ++ X ++ bytes "\",\"count\":0,\"items\":[]\x7d" := by
  constructor
  · have h := process_data_json_data env hw [] X output_dir ho
    cases hf : (process_data_json env [] X output_dir).file with
    | none => simp [hf] at h
    | some fp =>
      rw [hf] at h
      simp only [Option.map_some', Option.some.injEq] at h
      have hd : fp.data = bytes "\x7b\n  \"type\": \"" ++ X ++ bytes "\",\n  \"count\": "
          ++ fmt_d 0 ++ bytes ",\n  \"items\": [\n" ++ bytes "  ]\n\x7d\n" := by
        rw [h, document_text, cstr_of_no_nul X h0]
        simp [count_loop, comma_lines]
      simp only [Option.map_some', Option.some.injEq]
      rw [hd]
      exact tokens_match_empty_document X
  · simp [empty_document_tokens, bytes]

set_option maxRecDepth 100000 in
/-- C7, witness: the empty `jobs` document. -/
theorem empty_record_list_document_witness :
    (∀ k, Env.healthy.write_ok k = true)
    ∧ Env.healthy.fopen_ok
        (process_data_json Env.healthy [] (bytes "jobs") (bytes "out")).filename = true
    ∧ (0 : UInt8) ∉ bytes "jobs"
    ∧ (process_data_json Env.healthy [] (bytes "jobs") (bytes "out")).file.map FILE.data
        = some (bytes "\x7b\n  \"type\": \"jobs\",\n  \"count\": 0,\n  \"items\": [\n  ]\n\x7d\n")
    ∧ (process_data_json Env.healthy [] (bytes "jobs") (bytes "out")).file.map
        (fun fp => tokens_match (empty_document_tokens (bytes "jobs")) fp.data) = some true :=
  ⟨fun _ => rfl, rfl, by decide, by decide,
    (empty_record_list_document Env.healthy (bytes "jobs") (bytes "out") (fun _ => rfl) rfl
      (by decide)).1⟩

set_option maxRecDepth 100000 in
/-- C8: when the file opens and no output call fails, the document of the records `nodeA`
(one attribute `state` = `free`, no resource) and `nodeB` (no attributes) for the category
`nodes` is, up to whitespace between tokens,
`{"type":"nodes","count":2,"items":[{"name":"nodeA","attributes":{"state":"free"}},`
`{"name":"nodeB","attributes":{}}]}`. -/
theorem nodes_scenario_document (env : Env) (output_dir : List UInt8)
    (hw : ∀ k, env.write_ok k = true)
    (ho : env.fopen_ok
      (process_data_json env scenario_records (bytes "nodes") output_dir).filename = true) :
    (process_data_json env scenario_records (bytes "nodes") output_dir).file.map FILE.data
      = some (bytes ("\x7b\n  \"type\": \"nodes\",\n  \"count\": 2,\n  \"items\": [\n"
          ++ "    \x7b\n      \"name\": \"nodeA\",\n      \"attributes\": \x7b\n"
          ++ "        \"state\": \"free\"\n      \x7d\n    \x7d,\n"
          ++ "    \x7b\n      \"name\": \"nodeB\",\n      \"attributes\": \x7b\n"
          ++ "      \x7d\n    \x7d\n  ]\n\x7d\n"))
    ∧ (process_data_json env scenario_records (bytes "nodes") output_dir).file.map
        (fun fp => tokens_match scenario_tokens fp.data) = some true
    ∧ scenario_tokens.flatten
        = bytes ("\x7b\"type\":\"nodes\",\"count\":2,\"items\":["
          ++ "\x7b\"name\":\"nodeA\",\"attributes\":\x7b\"state\":\"free\"\x7d\x7d,"
          ++ "\x7b\"name\":\"nodeB\",\"attributes\":\x7b\x7d\x7d]\x7d") := by
  have h := process_data_json_data env hw scenario_records (bytes "nodes") output_dir ho
  have hdoc : document_text (bytes "nodes") (count_loop scenario_records 0) scenario_records
      = bytes ("\x7b\n  \"type\": \"nodes\",\n  \"count\": 2,\n  \"items\": [\n"
          ++ "    \x7b\n      \"name\": \"nodeA\",\n      \"attributes\": \x7b\n"
          ++ "        \"state\": \"free\"\n      \x7d\n    \x7d,\n"
          ++ "    \x7b\n      \"name\": \"nodeB\",\n      \"attributes\": \x7b\n"
          ++ "      \x7d\n    \x7d\n  ]\n\x7d\n") := by decide
  have hm : tokens_match scenario_tokens
      (document_text (bytes "nodes") (count_loop scenario_records 0) scenario_records)
        = true := by decide
  refine ⟨by rw [h, hdoc], ?_, by decide⟩
  cases hf : (process_data_json env scenario_records (bytes "nodes") output_dir).file with
  | none => simp [hf] at h
  | some fp =>
    rw [hf] at h
    simp only [Option.map_some', Option.some.injEq] at h
    simp [h, hm]

/-- C8, witness: the scenario in the environment where every call succeeds. -/
theorem nodes_scenario_document_witness :
    (∀ k, Env.healthy.write_ok k = true)
    ∧ Env.healthy.fopen_ok
        (process_data_json Env.healthy scenario_records (bytes "nodes") (bytes "out")).filename
          = true
    ∧ (process_data_json Env.healthy scenario_records (bytes "nodes") (bytes "out")).file.map
        (fun fp => tokens_match scenario_tokens fp.data) = some true :=
  ⟨fun _ => rfl, rfl,
    (nodes_scenario_document Env.healthy (bytes "out") (fun _ => rfl) rfl).2.1⟩

/-- C9: `process_data_json` returns -1 exactly when the file cannot be opened; in that case no
stream exists, so no byte of a document is written; and whenever the file opens it
returns 0. -/
theorem failure_iff_file_not_opened (env : Env) (bs : List batch_status)
    (type output_dir : List UInt8) :
    ((process_data_json env bs type output_dir).ret = -1
      ↔ env.fopen_ok (process_data_json env bs type output_dir).filename = false)
    ∧ (env.fopen_ok (process_data_json env bs type output_dir).filename = false
      → (process_data_json env bs type output_dir).file = none)
    ∧ (env.fopen_ok (process_data_json env bs type output_dir).filename = true
      → (process_data_json env bs type output_dir).ret = 0) := by
  rw [process_data_json_ret, process_data_json_filename]
  cases ho : env.fopen_ok
      (snprintf 512 (cstr output_dir ++ bytes "/" ++ cstr type ++ bytes ".json"))
  · simp only [process_data_json, ho]
    simp
  · simp

/-- C9, witness: with a missing output directory -1 is returned and no stream exists; in the
environment where every call succeeds 0 is returned. -/
theorem failure_iff_file_not_opened_witness :
    (process_data_json Env.no_dir scenario_records (bytes "nodes") (bytes "missing")).ret = -1
    ∧ (process_data_json Env.no_dir scenario_records (bytes "nodes") (bytes "missing")).file
        = none
    ∧ (process_data_json Env.healthy scenario_records (bytes "nodes") (bytes "out")).ret = 0 :=
  ⟨(failure_iff_file_not_opened Env.no_dir scenario_records (bytes "nodes")
      (bytes "missing")).1.mpr rfl,
    (failure_iff_file_not_opened Env.no_dir scenario_records (bytes "nodes")
      (bytes "missing")).2.1 rfl,
    (failure_iff_file_not_opened Env.healthy scenario_records (bytes "nodes")
      (bytes "out")).2.2 rfl⟩

set_option maxRecDepth 100000 in
/-- C10, counterexample: in an environment where the file opens but every output call and the
final `fclose` fail, the stream ends with its error indicator set and without a single byte,
`fclose` reports EOF, and `process_data_json` still returns 0. -/
theorem write_failure_not_reported :
    (process_data_json Env.failing scenario_records (bytes "nodes") (bytes "out")).file
        = some { data := [], calls := 44, err := true }
    ∧ (process_data_json Env.failing scenario_records (bytes "nodes") (bytes "out")).closed
        = some (-1)
    ∧ (process_data_json Env.failing scenario_records (bytes "nodes") (bytes "out")).ret = 0 := by
  decide

/-- C10, amended: the status `process_data_json` returns depends on the opening of the file
alone: whenever the file opens it returns 0, whichever output calls fail and whether or not the
final `fclose` fails; failures of output calls are not reported to the caller. -/
theorem return_ignores_write_failures (env : Env) (bs : List batch_status)
    (type output_dir : List UInt8)
    (ho : env.fopen_ok (process_data_json env bs type output_dir).filename = true) :
    ∀ (write_ok : Nat → Bool) (fclose_ok : Bool),
      (process_data_json
          { fopen_ok := env.fopen_ok, write_ok := write_ok, fclose_ok := fclose_ok }
          bs type output_dir).ret = 0 := by
  intro write_ok fclose_ok
  rw [process_data_json_filename] at ho
  rw [process_data_json_ret, process_data_json_filename]
  simp only [ho, if_true]

/-- C10, witness: the file opens, the third output call fails, and 0 is returned. -/
theorem return_ignores_write_failures_witness :
    Env.healthy.fopen_ok
        (process_data_json Env.healthy scenario_records (bytes "nodes") (bytes "out")).filename
          = true
    ∧ (process_data_json
          { fopen_ok := Env.healthy.fopen_ok, write_ok := fun k => k != 2, fclose_ok := false }
          scenario_records (bytes "nodes") (bytes "out")).ret = 0 :=
  ⟨rfl, return_ignores_write_failures Env.healthy scenario_records (bytes "nodes") (bytes "out")
    rfl (fun k => k != 2) false⟩

/-! ## Facts about the driver -/

/-- The steps of a run of `main` with three arguments and a successful connection: for each
category in turn, the fetch and the call of the serializer on the pointer fetched. -/
theorem main_events (w : World) (prog server output_dir : List UInt8)
    (hc : 0 ≤ w.pbs_connect server) :
    (main w [prog, server, output_dir]).events
      = Event.connect server (w.pbs_connect server)
        :: (List.zipWith
            (fun c (f : Fetch) =>
              [Event.fetch c,
               Event.serialize f.ptr c output_dir
                 (process_data_json (w.files c) f.ptr c output_dir)])
            categories (w.fetched (w.pbs_connect server))).flatten
        ++ [Event.disconnect (w.pbs_connect server)] := by
  have h : ¬ w.pbs_connect server < 0 := not_lt.mpr hc
  simp [main, h, categories, World.fetched]

theorem main_status (w : World) (prog server output_dir : List UInt8) :
    (main w [prog, server, output_dir]).status = if w.pbs_connect server < 0 then 1 else 0 := by
  by_cases h : w.pbs_connect server < 0 <;> simp [main, h]


/-! ## Facts about separators -/

theorem all_plain_of_forall (s : List UInt8)
    (h : ∀ c ∈ s, c ≠ 34 ∧ c ≠ 92 ∧ 32 ≤ c.toNat) : s.all plain_byte = true := by
  rw [List.all_eq_true]
  intro c hc
  obtain ⟨h1, h2, h3⟩ := h c hc
  simp [plain_byte, h1, h2, h3]

theorem all_escapable_of_forall (s : List UInt8)
    (h : ∀ c ∈ s, 32 ≤ c.toNat ∨ c = 10 ∨ c = 13 ∨ c = 9) : s.all escapable_byte = true := by
  rw [List.all_eq_true]
  intro c hc
  rcases h c hc with h1 | h1 | h1 | h1 <;> simp [escapable_byte, h1]

theorem well_escaped_cons_plain (c : UInt8) (l : List UInt8) (h : is_special c = false) :
    well_escaped (c :: l) = well_escaped l := by
  have h92 : c ≠ 92 := by
    rintro rfl
    simp [is_special] at h
  cases l with
  | nil => simp [well_escaped, h]
  | cons e rest => simp [well_escaped, h, h92]

theorem well_escaped_out (s : List UInt8) : well_escaped (json_escape_out s) = true := by
  induction s with
  | nil => rfl
  | cons c p ih =>
    rw [json_escape_out_cons]
    split_ifs with h0
    · rfl
    · unfold escape_byte
      split_ifs with h34 h92 h10 h13 h9
      · simpa [well_escaped, is_escape_letter] using ih
      · simpa [well_escaped, is_escape_letter] using ih
      · simpa [well_escaped, is_escape_letter] using ih
      · simpa [well_escaped, is_escape_letter] using ih
      · simpa [well_escaped, is_escape_letter] using ih
      · have hs : is_special c = false := by simp [is_special, h34, h92, h10, h13, h9]
        simpa [well_escaped_cons_plain c _ hs] using ih

theorem scan_end_append (a b : List UInt8) : ∀ esc : Bool,
    scan_end esc (a ++ b) = scan_end (scan_end esc a) b := by
  induction a with
  | nil => intro esc; rfl
  | cons c cs ih =>
    intro esc
    cases esc <;> simp [scan_end, ih]

theorem unescaped_quotes_append (a b : List UInt8) : ∀ esc : Bool,
    unescaped_quotes esc (a ++ b)
      = unescaped_quotes esc a + unescaped_quotes (scan_end esc a) b := by
  induction a with
  | nil => intro esc; simp [unescaped_quotes, scan_end]
  | cons c cs ih =>
    intro esc
    cases esc
    · by_cases h92 : c = 92
      · simp [unescaped_quotes, scan_end, ih, h92]
      · by_cases h34 : c = 34
        · simp [unescaped_quotes, scan_end, ih, h34]
          omega
        · simp [unescaped_quotes, scan_end, ih, h92, h34]
    · simp [unescaped_quotes, scan_end, ih]

/-- Appending two texts that the scan leaves outside an escape adds their quote counts. -/
theorem scans_to_append {a b : List UInt8} {n m : Nat} (ha : scans_to a n)
    (hb : scans_to b m) : scans_to (a ++ b) (n + m) := by
  obtain ⟨ha1, ha2⟩ := ha
  obtain ⟨hb1, hb2⟩ := hb
  exact ⟨by rw [scan_end_append, ha1, hb1], by rw [unescaped_quotes_append, ha1, ha2, hb2]⟩

theorem scans_to_out (s : List UInt8) : scans_to (json_escape_out s) 0 := by
  induction s with
  | nil => exact ⟨rfl, rfl⟩
  | cons c p ih =>
    rw [json_escape_out_cons]
    split_ifs with h0
    · exact ⟨rfl, rfl⟩
    · have hc : scans_to (escape_byte c) 0 := by
        unfold escape_byte
        split_ifs with h34 h92 h10 h13 h9
        · exact ⟨rfl, rfl⟩
        · exact ⟨rfl, rfl⟩
        · exact ⟨rfl, rfl⟩
        · exact ⟨rfl, rfl⟩
        · exact ⟨rfl, rfl⟩
        · exact ⟨by simp [scan_end, h92], by simp [unescaped_quotes, h92, h34]⟩
      exact scans_to_append hc ih

theorem scans_to_cstr (s : List UInt8) (h : ∀ c ∈ s, c ≠ 34 ∧ c ≠ 92) :
    scans_to (cstr s) 0 := by
  induction s with
  | nil => exact ⟨rfl, rfl⟩
  | cons c p ih =>
    obtain ⟨h34, h92⟩ := h c (by simp)
    have hp := ih (fun x hx => h x (by simp [hx]))
    unfold cstr
    split_ifs with h0
    · exact ⟨rfl, rfl⟩
    · have hc : scans_to [c] 0 :=
        ⟨by simp [scan_end, h92], by simp [unescaped_quotes, h92, h34]⟩
      exact scans_to_append hc hp

theorem scans_to_fmt_d (i : Int) : scans_to (fmt_d i) 0 := by
  have hu : ∀ (fuel n : Nat) (acc : List UInt8), scans_to acc 0 →
      scans_to (utoa fuel n acc) 0 := by
    intro fuel
    induction fuel with
    | zero => intro n acc h; exact h
    | succ fuel ih =>
      intro n acc h
      have hd : scans_to [UInt8.ofNat (48 + n % 10)] 0 := by
        have h1 : UInt8.ofNat (48 + n % 10) ≠ 92 := by
          intro e
          have := congrArg UInt8.toNat e
          rw [toNat_digit] at this
          have h2 : (92 : UInt8).toNat = 92 := rfl
          omega
        have h2 : UInt8.ofNat (48 + n % 10) ≠ 34 := by
          intro e
          have := congrArg UInt8.toNat e
          rw [toNat_digit] at this
          have h2 : (34 : UInt8).toNat = 34 := rfl
          omega
        exact ⟨by simp [scan_end, h1], by simp [unescaped_quotes, h1, h2]⟩
      have hcons : scans_to (UInt8.ofNat (48 + n % 10) :: acc) 0 := scans_to_append hd h
      unfold utoa
      split_ifs
      · exact hcons
      · exact ih _ _ hcons
  unfold fmt_d
  split_ifs
  · exact scans_to_append (a := [45]) ⟨rfl, rfl⟩ (hu _ _ [] ⟨rfl, rfl⟩)
  · exact hu _ _ [] ⟨rfl, rfl⟩

theorem scans_to_comma_lines (indent : List UInt8) (hi : scans_to indent 0)
    (elems : List (List UInt8)) (f : List UInt8 → Nat) (h : ∀ x ∈ elems, scans_to x (f x)) :
    scans_to (comma_lines indent elems) (elems.map f).sum := by
  induction elems with
  | nil => exact ⟨rfl, rfl⟩
  | cons x xs ih =>
    have hx := h x (by simp)
    have hxs := ih (fun y hy => h y (by simp [hy]))
    rw [comma_lines_cons, List.map_cons, List.sum_cons]
    have hsep : scans_to ((if xs = [] then [] else [44]) ++ [10]) 0 := by
      split_ifs <;> exact ⟨rfl, rfl⟩
    have := scans_to_append (scans_to_append (scans_to_append hi hx) hsep) hxs
    simpa [List.append_assoc] using this

theorem scans_to_field_key (a : attrl) : scans_to (field_key a) 0 := by
  unfold field_key
  cases a.resource with
  | none => exact scans_to_out _
  | some resource =>
    exact scans_to_append (scans_to_out _)
      (scans_to_append (a := [46]) ⟨rfl, rfl⟩ (scans_to_out _))

theorem scans_to_field (a : attrl) : scans_to (field_text a) 4 := by
  have hk := scans_to_field_key a
  have h1 : scans_to [34] 1 := ⟨rfl, rfl⟩
  have h2 : scans_to (bytes "\": \"") 2 := ⟨rfl, rfl⟩
  have := scans_to_append (scans_to_append (scans_to_append (scans_to_append h1 hk) h2)
    (scans_to_out a.value)) h1
  simpa [field_text] using this

theorem scans_to_item (r : batch_status) : scans_to (item_text r) (6 + 4 * r.attribs.length) := by
  have h1 : scans_to (bytes "\x7b\n      \"name\": \"") 3 := ⟨rfl, rfl⟩
  have h2 : scans_to (bytes "\",\n      \"attributes\": \x7b\n") 3 := ⟨rfl, rfl⟩
  have h3 : scans_to (bytes "      \x7d\n    \x7d") 0 := ⟨rfl, rfl⟩
  have h4 := scans_to_comma_lines (bytes "        ") ⟨rfl, rfl⟩ (r.attribs.map field_text)
    (fun _ => 4) (fun x hx => by
      obtain ⟨a, _, rfl⟩ := List.mem_map.mp hx
      exact scans_to_field a)
  have hconst : ∀ l : List (List UInt8), (l.map (fun _ => 4)).sum = 4 * l.length := by
    intro l
    induction l with
    | nil => rfl
    | cons _ _ ih =>
      simp only [List.map_cons, List.sum_cons, List.length_cons, ih]
      omega
  rw [hconst, List.length_map] at h4
  have := scans_to_append (scans_to_append (scans_to_append (scans_to_append h1
    (scans_to_out r.name)) h2) h4) h3
  have e : 3 + 0 + 3 + 4 * r.attribs.length + 0 = 6 + 4 * r.attribs.length := by omega
  rw [e] at this
  exact this

theorem scans_to_document (type : List UInt8) (count : Int) (bs : List batch_status)
    (ht : ∀ c ∈ type, c ≠ 34 ∧ c ≠ 92) :
    scans_to (document_text type count bs) (delimiter_count bs) := by
  have h1 : scans_to (bytes "\x7b\n  \"type\": \"") 3 := ⟨rfl, rfl⟩
  have h2 : scans_to (bytes "\",\n  \"count\": ") 3 := ⟨rfl, rfl⟩
  have h3 : scans_to (bytes ",\n  \"items\": [\n") 2 := ⟨rfl, rfl⟩
  have h4 : scans_to (bytes "  ]\n\x7d\n") 0 := ⟨rfl, rfl⟩
  have h5 := scans_to_comma_lines (bytes "    ") ⟨rfl, rfl⟩ (bs.map item_text)
    (unescaped_quotes false) (fun x hx => by
      obtain ⟨r, _, rfl⟩ := List.mem_map.mp hx
      exact ⟨(scans_to_item r).1, rfl⟩)
  have hsum : (List.map (unescaped_quotes false) (bs.map item_text)).sum
      = (bs.map (fun r => 6 + 4 * r.attribs.length)).sum := by
    rw [List.map_map]
    congr 1
    apply List.map_congr_left
    intro r _
    exact (scans_to_item r).2
  rw [hsum] at h5
  have := scans_to_append (scans_to_append (scans_to_append (scans_to_append
    (scans_to_append (scans_to_append h1 (scans_to_cstr type ht)) h2) (scans_to_fmt_d count))
    h3) h5) h4
  have e : 3 + 0 + 3 + 0 + 2 + (bs.map (fun r => 6 + 4 * r.attribs.length)).sum + 0
      = delimiter_count bs := by
    unfold delimiter_count
    omega
  rw [e] at this
  exact this


theorem json_escape_out_inj (s t : List UInt8) (hs : (0 : UInt8) ∉ s) (ht : (0 : UInt8) ∉ t)
    (h : json_escape_out s = json_escape_out t) : s = t := by
  have h1 := json_unescape_out s
  have h2 := json_unescape_out t
  rw [cstr_of_no_nul s hs] at h1
  rw [cstr_of_no_nul t ht] at h2
  rw [← h1, ← h2, h]

theorem no_dot_escape_byte (c : UInt8) (hc : c ≠ 46) : (46 : UInt8) ∉ escape_byte c := by
  unfold escape_byte
  split_ifs
  · decide
  · decide
  · decide
  · decide
  · decide
  · simpa using fun h => hc h.symm

theorem no_dot_out (s : List UInt8) (h : (46 : UInt8) ∉ s) :
    (46 : UInt8) ∉ json_escape_out s := by
  induction s with
  | nil => simp [json_escape_out_eq, cstr]
  | cons c p ih =>
    have hc : c ≠ 46 := fun e => h (by simp [e])
    have hp : (46 : UInt8) ∉ p := fun e => h (by simp [e])
    rw [json_escape_out_cons]
    split_ifs
    · simp
    · intro hm
      rcases List.mem_append.mp hm with hm | hm
      · exact no_dot_escape_byte c hc hm
      · exact ih hp hm

/-- Two texts without a dot, each followed by a dot and a remainder, are equal only piece by
piece. -/
theorem split_at_first_dot (x : List UInt8) : ∀ (y u v : List UInt8),
    (46 : UInt8) ∉ x → (46 : UInt8) ∉ y → x ++ 46 :: u = y ++ 46 :: v → x = y ∧ u = v := by
  induction x with
  | nil =>
    intro y u v _ hy h
    cases y with
    | nil => simpa using h
    | cons d ds =>
      simp only [List.nil_append, List.cons_append, List.cons.injEq] at h
      exact absurd h.1.symm (fun e => hy (by simp [e]))
  | cons c cs ih =>
    intro y u v hx hy h
    cases y with
    | nil =>
      simp only [List.nil_append, List.cons_append, List.cons.injEq] at h
      exact absurd h.1 (fun e => hx (by simp [e]))
    | cons d ds =>
      simp only [List.cons_append, List.cons.injEq] at h
      obtain ⟨h1, h2⟩ := ih ds u v (fun e => hx (by simp [e])) (fun e => hy (by simp [e])) h.2
      exact ⟨by rw [h.1, h1], h2⟩

theorem json_escape_append (env : Env) (a b : List UInt8) (ha : (0 : UInt8) ∉ a) :
    ∀ fp : FILE, json_escape env (a ++ b) fp = json_escape env b (json_escape env a fp) := by
  induction a with
  | nil => intro fp; simp [json_escape]
  | cons c p ih =>
    intro fp
    have hc : c ≠ 0 := fun e => ha (by simp [e])
    have hp : (0 : UInt8) ∉ p := fun e => ha (by simp [e])
    simp only [List.cons_append, json_escape, hc, if_false]
    split_ifs <;> exact ih hp _

theorem json_escape_out_append (a b : List UInt8) (ha : (0 : UInt8) ∉ a) :
    json_escape_out (a ++ b) = json_escape_out a ++ json_escape_out b := by
  induction a with
  | nil => simp [json_escape_out_eq, cstr]
  | cons c p ih =>
    have hc : c ≠ 0 := fun e => ha (by simp [e])
    have hp : (0 : UInt8) ∉ p := fun e => ha (by simp [e])
    rw [List.cons_append, json_escape_out_cons, json_escape_out_cons, if_neg hc, if_neg hc,
      ih hp, List.append_assoc]

theorem escape_byte_length (c : UInt8) :
    (escape_byte c).length = 1 + if is_special c = true then 1 else 0 := by
  by_cases h34 : c = 34
  · subst h34; rfl
  by_cases h92 : c = 92
  · subst h92; rfl
  by_cases h10 : c = 10
  · subst h10; rfl
  by_cases h13 : c = 13
  · subst h13; rfl
  by_cases h9 : c = 9
  · subst h9; rfl
  simp [escape_byte, is_special, h34, h92, h10, h13, h9]

theorem json_escape_out_length (s : List UInt8) (h : (0 : UInt8) ∉ s) :
    (json_escape_out s).length = s.length + s.countP is_special := by
  induction s with
  | nil => simp [json_escape_out_eq, cstr]
  | cons c p ih =>
    have hc : c ≠ 0 := fun e => h (by simp [e])
    have hp : (0 : UInt8) ∉ p := fun e => h (by simp [e])
    rw [json_escape_out_cons, if_neg hc, List.length_append, ih hp, List.countP_cons,
      List.length_cons, escape_byte_length]
    omega


theorem escapable_byte_iff (c : UInt8) :
    escapable_byte c = true ↔ (32 ≤ c.toNat ∨ c = 10 ∨ c = 13 ∨ c = 9) := by
  simp only [escapable_byte, Bool.or_eq_true, decide_eq_true_eq]
  tauto

theorem all_escapable_iff (s : List UInt8) :
    s.all escapable_byte = true ↔ ∀ c ∈ s, 32 ≤ c.toNat ∨ c = 10 ∨ c = 13 ∨ c = 9 := by
  constructor
  · intro h c hc
    have := (List.all_eq_true.mp h) c hc
    simp only [escapable_byte, Bool.or_eq_true, decide_eq_true_eq] at this
    tauto
  · exact all_escapable_of_forall s

theorem attrl_clean_iff (a : attrl) :
    a.clean = true ↔
      (∀ c ∈ a.name, 32 ≤ c.toNat ∨ c = 10 ∨ c = 13 ∨ c = 9)
      ∧ (∀ res, a.resource = some res → ∀ c ∈ res, 32 ≤ c.toNat ∨ c = 10 ∨ c = 13 ∨ c = 9)
      ∧ (∀ c ∈ a.value, 32 ≤ c.toNat ∨ c = 10 ∨ c = 13 ∨ c = 9) := by
  unfold attrl.clean
  cases hres : a.resource with
  | none => simp [escapable_byte_iff]
  | some res => simp only [Bool.and_eq_true, all_escapable_iff, Option.some.injEq,
      forall_eq', and_assoc]

theorem all_clean_iff (bs : List batch_status) :
    bs.all batch_status.clean = true ↔
      ∀ r ∈ bs, (∀ c ∈ r.name, 32 ≤ c.toNat ∨ c = 10 ∨ c = 13 ∨ c = 9)
        ∧ ∀ a ∈ r.attribs,
            (∀ c ∈ a.name, 32 ≤ c.toNat ∨ c = 10 ∨ c = 13 ∨ c = 9)
            ∧ (∀ res, a.resource = some res →
                ∀ c ∈ res, 32 ≤ c.toNat ∨ c = 10 ∨ c = 13 ∨ c = 9)
            ∧ (∀ c ∈ a.value, 32 ≤ c.toNat ∨ c = 10 ∨ c = 13 ∨ c = 9) := by
  simp only [List.all_eq_true, batch_status.clean, Bool.and_eq_true, attrl_clean_iff,
    escapable_byte_iff]

theorem all_plain_iff (s : List UInt8) :
    s.all plain_byte = true ↔ ∀ c ∈ s, c ≠ 34 ∧ c ≠ 92 ∧ 32 ≤ c.toNat := by
  constructor
  · intro h c hc
    have := (List.all_eq_true.mp h) c hc
    simp only [plain_byte, Bool.and_eq_true, decide_eq_true_eq, bne_iff_ne] at this
    tauto
  · exact all_plain_of_forall s


/-! ## Facts about the emitted key -/

/-- Reading a literal whose content has no unescaped quote and does not end in an escaping
backslash stops at the quote that follows the content. -/
theorem literal_content_closed (x rest : List UInt8) : ∀ esc : Bool,
    unescaped_quotes esc x = 0 → scan_end esc x = false →
      literal_content esc (x ++ 34 :: rest) = x := by
  induction x with
  | nil =>
    intro esc _ he
    simp only [scan_end] at he
    subst he
    simp [literal_content]
  | cons c cs ih =>
    intro esc hq he
    cases esc
    · by_cases h92 : c = 92
      · simp only [unescaped_quotes, scan_end, h92, if_true, Bool.false_eq_true, if_false,
          decide_True] at hq he
        simp [literal_content, h92, ih true hq he]
      · by_cases h34 : c = 34
        · simp [unescaped_quotes, h34] at hq
        · simp only [unescaped_quotes, scan_end, h92, h34, if_false, Bool.false_eq_true,
            decide_False] at hq he
          simp [literal_content, h92, h34, ih false hq he]
    · simp only [unescaped_quotes, scan_end, if_true] at hq he
      simp [literal_content, ih false hq he]

/-- The line the attribute loop writes for a single attribute. -/
theorem attr_loop_single (env : Env) (hw : ∀ k, env.write_ok k = true) (a : attrl) (fp : FILE) :
    (attr_loop env [a] fp).data
      = fp.data ++ bytes "        \"" ++ field_key a ++ bytes "\": \""
          ++ json_escape_out a.value ++ bytes "\"\n" := by
  rw [attr_loop_data env hw]
  simp [comma_lines, List.intercalate, field_text, bytes]

/-- The key read back from the emitted line is the escaped name, followed by a dot and the
escaped resource when there is one. -/
theorem emitted_key_eq (a : attrl) : emitted_key a = field_key a := by
  unfold emitted_key
  rw [attr_loop_single Env.healthy (fun _ => rfl)]
  have h : (FILE.fresh.data ++ bytes "        \"" ++ field_key a ++ bytes "\": \""
        ++ json_escape_out a.value ++ bytes "\"\n").drop 9
      = field_key a ++ 34 :: (bytes ": \"" ++ json_escape_out a.value ++ bytes "\"\n") := by
    simp [FILE.fresh, bytes]
  rw [h]
  exact literal_content_closed _ _ false (scans_to_field_key a).2 (scans_to_field_key a).1

/-- For names without a dot the key text determines the name and the resource. -/
theorem field_key_inj (a b : attrl)
    (hda : (46 : UInt8) ∉ a.name) (hdb : (46 : UInt8) ∉ b.name)
    (hna : (0 : UInt8) ∉ a.name) (hnb : (0 : UInt8) ∉ b.name)
    (hra : ∀ res, a.resource = some res → (0 : UInt8) ∉ res)
    (hrb : ∀ res, b.resource = some res → (0 : UInt8) ∉ res)
    (h : field_key a = field_key b) :
    a.name = b.name ∧ a.resource = b.resource := by
  have ha := no_dot_out a.name hda
  have hb := no_dot_out b.name hdb
  unfold field_key at h
  cases hres_a : a.resource with
  | none =>
    cases hres_b : b.resource with
    | none =>
      rw [hres_a, hres_b] at h
      exact ⟨json_escape_out_inj _ _ hna hnb h, rfl⟩
    | some rb =>
      rw [hres_a, hres_b] at h
      simp only [] at h
      exact absurd (h ▸ (List.mem_append_right _ (List.mem_cons_self _ _))) ha
  | some ra =>
    cases hres_b : b.resource with
    | none =>
      rw [hres_a, hres_b] at h
      simp only [] at h
      exact absurd (h ▸ (List.mem_append_right _ (List.mem_cons_self _ _))) hb
    | some rb =>
      rw [hres_a, hres_b] at h
      simp only [] at h
      obtain ⟨h1, h2⟩ := split_at_first_dot _ _ _ _ ha hb h
      have e1 := json_escape_out_inj _ _ hna hnb h1
      have e2 := json_escape_out_inj _ _ (hra ra hres_a) (hrb rb hres_b) h2
      exact ⟨e1, by rw [e2]⟩

/-- None of the seven category names holds a quote or a backslash. -/
theorem categories_plain : ∀ type ∈ categories, ∀ c ∈ type, c ≠ 34 ∧ c ≠ 92 := by
  decide

/-- Every serializer call of a run of `main` is for one of the seven categories. -/
theorem serializer_calls_categories (w : World) (prog server output_dir : List UInt8)
    (hc : 0 ≤ w.pbs_connect server) :
    ∀ call ∈ serializer_calls (main w [prog, server, output_dir]).events,
      call.2.1 ∈ categories := by
  rw [main_events w prog server output_dir hc]
  intro call hcall
  simp only [categories, World.fetched, List.zipWith_cons_cons, List.zipWith_nil_left,
    List.flatten_cons, List.flatten_nil, List.cons_append, List.nil_append, List.append_nil,
    serializer_calls, List.mem_cons, List.mem_singleton, List.not_mem_nil, or_false] at hcall
  rcases hcall with h | h | h | h | h | h | h <;> subst h <;> simp [categories]


/-! ## The claims, continued -/

set_option maxRecDepth 100000 in
/-- C11, counterexample: for an output directory of 512 bytes `a` and the category `nodes` the
path handed to `fopen` is not the concatenation `d/nodes.json`: it is 511 bytes `a`, cut off
before the separator and the category. -/
theorem path_cut_at_buffer_size :
    (process_data_json Env.healthy [] (bytes "nodes") (List.replicate 512 97)).filename
        ≠ List.replicate 512 97 ++ bytes "/" ++ bytes "nodes" ++ bytes ".json"
    ∧ (process_data_json Env.healthy [] (bytes "nodes") (List.replicate 512 97)).filename
        = List.replicate 511 97 := by
  constructor <;> decide

/-- C11, amended: for every output directory `d` and category `c` (without NUL byte) the path
`process_data_json` opens is the first 511 bytes of `d ++ "/" ++ c ++ ".json"`, the capacity
of its 512-byte buffer; it is the whole concatenation exactly when that is at most 511 bytes
long. -/
theorem path_is_concatenation_within_buffer (env : Env) (bs : List batch_status)
    (d c : List UInt8) (hd : (0 : UInt8) ∉ d) (hc : (0 : UInt8) ∉ c) :
    (process_data_json env bs c d).filename = (d ++ bytes "/" ++ c ++ bytes ".json").take 511
    ∧ ((process_data_json env bs c d).filename = d ++ bytes "/" ++ c ++ bytes ".json"
        ↔ (d ++ bytes "/" ++ c ++ bytes ".json").length ≤ 511) := by
  have h : (process_data_json env bs c d).filename
      = (d ++ bytes "/" ++ c ++ bytes ".json").take 511 := by
    rw [process_data_json_filename, cstr_of_no_nul d hd, cstr_of_no_nul c hc]
    rfl
  refine ⟨h, ?_⟩
  rw [h]
  exact List.take_eq_self_iff _

set_option maxRecDepth 100000 in
/-- C11, witness: the path for the directory `/var/spool/pbs` and the category `jobs`. -/
theorem path_is_concatenation_within_buffer_witness :
    (0 : UInt8) ∉ bytes "/var/spool/pbs" ∧ (0 : UInt8) ∉ bytes "jobs"
    ∧ (process_data_json Env.healthy [] (bytes "jobs") (bytes "/var/spool/pbs")).filename
        = bytes "/var/spool/pbs/jobs.json" :=
  ⟨by decide, by decide,
    (path_is_concatenation_within_buffer Env.healthy [] (bytes "/var/spool/pbs") (bytes "jobs")
      (by decide) (by decide)).1.trans (by decide)⟩

/-- C12: after a successful connection `main` fetches the seven categories in the order
servers, queues, nodes, jobs, reservations, resources, schedulers and calls the serializer
exactly once for each, right after its fetch, on the pointer that fetch returned; the fetches
made and the arguments of the serializer calls are the same whatever happens to the files, in
particular whichever serializer calls fail. -/
theorem main_serializes_each_category_once (w : World) (prog server output_dir : List UInt8)
    (hc : 0 ≤ w.pbs_connect server) :
    (main w [prog, server, output_dir]).events
      = Event.connect server (w.pbs_connect server)
        :: (List.zipWith
            (fun c (f : Fetch) =>
              [Event.fetch c,
               Event.serialize f.ptr c output_dir
                 (process_data_json (w.files c) f.ptr c output_dir)])
            categories (w.fetched (w.pbs_connect server))).flatten
        ++ [Event.disconnect (w.pbs_connect server)]
    ∧ fetches (main w [prog, server, output_dir]).events = categories
    ∧ serializer_calls (main w [prog, server, output_dir]).events
        = List.zipWith (fun c (f : Fetch) => (f.ptr, c, output_dir)) categories
            (w.fetched (w.pbs_connect server))
    ∧ ∀ files : List UInt8 → Env,
        fetches (main { w with files := files } [prog, server, output_dir]).events
          = fetches (main w [prog, server, output_dir]).events
        ∧ serializer_calls (main { w with files := files } [prog, server, output_dir]).events
          = serializer_calls (main w [prog, server, output_dir]).events := by
  have h := main_events w prog server output_dir hc
  have hf : fetches (main w [prog, server, output_dir]).events = categories := by
    rw [h]; simp [categories, World.fetched, fetches]
  have hs : serializer_calls (main w [prog, server, output_dir]).events
      = List.zipWith (fun c (f : Fetch) => (f.ptr, c, output_dir)) categories
          (w.fetched (w.pbs_connect server)) := by
    rw [h]; simp [categories, World.fetched, serializer_calls]
  refine ⟨h, hf, hs, ?_⟩
  intro files
  have h2 := main_events { w with files := files } prog server output_dir hc
  constructor
  · rw [hf, h2]; simp [categories, World.fetched, fetches]
  · rw [hs, h2]; simp [categories, World.fetched, serializer_calls]

set_option maxRecDepth 100000 in
/-- C12, witness: a run in which no file can be opened, so that every serializer call returns
-1, still makes the seven serializer calls in order. -/
theorem main_serializes_each_category_once_witness :
    0 ≤ World.node_fetch_fails.pbs_connect (bytes "pbs.example.org")
    ∧ (serializer_calls
        (main { World.node_fetch_fails with files := fun _ => Env.no_dir }
          [bytes "pbscaller", bytes "pbs.example.org", bytes "out"]).events).map
          (fun call => call.2.1) = categories :=
  ⟨by decide,
    (congrArg (List.map (fun call => call.2.1))
      (((main_serializes_each_category_once World.node_fetch_fails (bytes "pbscaller")
        (bytes "pbs.example.org") (bytes "out") (by decide)).2.2.2
          (fun _ => Env.no_dir)).2)).trans (by decide)⟩

set_option maxRecDepth 100000 in
/-- C13, counterexample: in a run whose node fetch fails with an error, `main` still calls the
serializer for `nodes`, with the NULL pointer, and the document with count 0 and no items is
written for it. -/
theorem fetch_error_is_serialized :
    World.node_fetch_fails.pbs_statnode 3 = Fetch.error 15031
    ∧ (serializer_calls
        (main World.node_fetch_fails
          [bytes "pbscaller", bytes "pbs.example.org", bytes "out"]).events)[2]?
        = some ([], bytes "nodes", bytes "out")
    ∧ (documents
        (main World.node_fetch_fails
          [bytes "pbscaller", bytes "pbs.example.org", bytes "out"]).events)[2]?
        = some (bytes "nodes",
            some (bytes "\x7b\n  \"type\": \"nodes\",\n  \"count\": 0,\n  \"items\": [\n  ]\n\x7d\n")) := by
  refine ⟨rfl, ?_, ?_⟩ <;> decide

/-- C13, amended: a failed fetch reaches `main` as a NULL pointer, which it does not tell
from a category without records: after a successful connection, for every category whose
fetch fails, `main` calls the serializer for that category with the empty record list, and
when the file of that category opens and no output call on it fails, the document with count
0 and no items is written. -/
theorem fetch_error_written_as_empty_document (w : World)
    (prog server output_dir : List UInt8) (hc : 0 ≤ w.pbs_connect server)
    (i : Nat) (c : List UInt8) (errno : Int)
    (hi : categories[i]? = some c)
    (he : (w.fetched (w.pbs_connect server))[i]? = some (Fetch.error errno)) :
    (serializer_calls (main w [prog, server, output_dir]).events)[i]?
      = some ([], c, output_dir)
    ∧ ((∀ k, (w.files c).write_ok k = true)
        → (w.files c).fopen_ok (process_data_json (w.files c) [] c output_dir).filename = true
        → (documents (main w [prog, server, output_dir]).events)[i]?
            = some (c, some (bytes "\x7b\n  \"type\": \"" ++ cstr c
                ++ bytes "\",\n  \"count\": 0,\n  \"items\": [\n  ]\n\x7d\n"))) := by
  have h := main_events w prog server output_dir hc
  have hdoc : ∀ env : Env, (∀ k, env.write_ok k = true) →
      env.fopen_ok (process_data_json env [] c output_dir).filename = true →
      (process_data_json env [] c output_dir).file.map FILE.data
        = some (bytes "\x7b\n  \"type\": \"" ++ cstr c
            ++ bytes "\",\n  \"count\": 0,\n  \"items\": [\n  ]\n\x7d\n") := by
    intro env hw ho
    rw [process_data_json_data env hw [] c output_dir ho]
    simp [document_text, count_loop, comma_lines, fmt_d, utoa, bytes]
  rw [h]
  simp only [categories, World.fetched] at hi he ⊢
  rcases i with _ | _ | _ | _ | _ | _ | _ | i
  all_goals first
    | (simp only [List.getElem?_cons_zero, List.getElem?_cons_succ, Option.some.injEq] at hi he
       subst hi
       simp only [List.zipWith_cons_cons, List.zipWith_nil_left, List.flatten_cons,
         List.flatten_nil, List.cons_append, List.nil_append, List.append_nil,
         serializer_calls, documents, List.getElem?_cons_zero, List.getElem?_cons_succ, he,
         Fetch.ptr]
       exact ⟨trivial, fun hw ho => by rw [hdoc _ hw ho]⟩)
    | simp at hi

set_option maxRecDepth 100000 in
/-- C13, witness: the run whose node fetch fails. -/
theorem fetch_error_written_as_empty_document_witness :
    0 ≤ World.node_fetch_fails.pbs_connect (bytes "pbs.example.org")
    ∧ categories[2]? = some (bytes "nodes")
    ∧ (World.node_fetch_fails.fetched
        (World.node_fetch_fails.pbs_connect (bytes "pbs.example.org")))[2]?
        = some (Fetch.error 15031)
    ∧ (serializer_calls
        (main World.node_fetch_fails
          [bytes "pbscaller", bytes "pbs.example.org", bytes "out"]).events)[2]?
        = some ([], bytes "nodes", bytes "out")
    ∧ (documents
        (main World.node_fetch_fails
          [bytes "pbscaller", bytes "pbs.example.org", bytes "out"]).events)[2]?
        = some (bytes "nodes", some (bytes "\x7b\n  \"type\": \"" ++ cstr (bytes "nodes")
            ++ bytes "\",\n  \"count\": 0,\n  \"items\": [\n  ]\n\x7d\n")) :=
  ⟨by decide, rfl, rfl,
    (fetch_error_written_as_empty_document World.node_fetch_fails (bytes "pbscaller")
      (bytes "pbs.example.org") (bytes "out") (by decide) 2 (bytes "nodes") 15031 rfl rfl).1,
    (fetch_error_written_as_empty_document World.node_fetch_fails (bytes "pbscaller")
      (bytes "pbs.example.org") (bytes "out") (by decide) 2 (bytes "nodes") 15031 rfl rfl).2
      (fun _ => rfl) rfl⟩

/-- C15: `main` returns 1 when it is not given exactly three arguments and when the connection
handle is negative, in both cases without a single fetch or serializer call (with a wrong
argument count without even connecting); when the connection succeeds it returns 0, whatever
the serializer calls return. -/
theorem main_exit_status (w : World) :
    (∀ argv : List (List UInt8), argv.length ≠ 3 →
        (main w argv).status = 1 ∧ (main w argv).events = [])
    ∧ (∀ prog server output_dir : List UInt8, w.pbs_connect server < 0 →
        (main w [prog, server, output_dir]).status = 1
        ∧ fetches (main w [prog, server, output_dir]).events = []
        ∧ serializer_calls (main w [prog, server, output_dir]).events = [])
    ∧ (∀ prog server output_dir : List UInt8, 0 ≤ w.pbs_connect server →
        ∀ files : List UInt8 → Env,
          (main { w with files := files } [prog, server, output_dir]).status = 0) := by
  refine ⟨?_, ?_, ?_⟩
  · intro argv h
    simp [main, h]
  · intro prog server output_dir h
    simp [main, h, fetches, serializer_calls]
  · intro prog server output_dir h files
    rw [main_status]
    have h2 : ¬ w.pbs_connect server < 0 := not_lt.mpr h
    simp [h2]

set_option maxRecDepth 100000 in
/-- C15, witness: two arguments, a refused connection, and a run in which every serializer
call fails. -/
theorem main_exit_status_witness :
    (main World.unreachable [bytes "pbscaller", bytes "pbs.example.org"]).status = 1
    ∧ (main World.unreachable [bytes "pbscaller", bytes "pbs.example.org"]).events = []
    ∧ (main World.unreachable
        [bytes "pbscaller", bytes "pbs.example.org", bytes "out"]).status = 1
    ∧ serializer_calls (main World.unreachable
        [bytes "pbscaller", bytes "pbs.example.org", bytes "out"]).events = []
    ∧ (main { World.node_fetch_fails with files := fun _ => Env.no_dir }
        [bytes "pbscaller", bytes "pbs.example.org", bytes "out"]).status = 0 :=
  ⟨((main_exit_status World.unreachable).1 _ (by decide)).1,
    ((main_exit_status World.unreachable).1 _ (by decide)).2,
    ((main_exit_status World.unreachable).2.1 (bytes "pbscaller") (bytes "pbs.example.org")
      (bytes "out") (by decide)).1,
    ((main_exit_status World.unreachable).2.1 (bytes "pbscaller") (bytes "pbs.example.org")
      (bytes "out") (by decide)).2.2,
    (main_exit_status World.node_fetch_fails).2.2 (bytes "pbscaller") (bytes "pbs.example.org")
      (bytes "out") (by decide) (fun _ => Env.no_dir)⟩

/-- C16: when the file opens and no output call fails, if the category has no quote, no
backslash and no byte below 0x20, and every record name, attribute name, resource and value has
no byte below 0x20 other than line feed, carriage return and tab, then for every record list
(empty lists and records without attributes included) the document is accepted by the JSON
recognizer over bytes. -/
theorem conditional_well_formedness (env : Env) (bs : List batch_status)
    (type output_dir : List UInt8)
    (hw : ∀ k, env.write_ok k = true)
    (ho : env.fopen_ok (process_data_json env bs type output_dir).filename = true)
    (ht : ∀ c ∈ type, c ≠ 34 ∧ c ≠ 92 ∧ 32 ≤ c.toNat)
    (hb : ∀ r ∈ bs, (∀ c ∈ r.name, 32 ≤ c.toNat ∨ c = 10 ∨ c = 13 ∨ c = 9)
        ∧ ∀ a ∈ r.attribs,
            (∀ c ∈ a.name, 32 ≤ c.toNat ∨ c = 10 ∨ c = 13 ∨ c = 9)
            ∧ (∀ res, a.resource = some res →
                ∀ c ∈ res, 32 ≤ c.toNat ∨ c = 10 ∨ c = 13 ∨ c = 9)
            ∧ (∀ c ∈ a.value, 32 ≤ c.toNat ∨ c = 10 ∨ c = 13 ∨ c = 9)) :
    ∃ fp : FILE, (process_data_json env bs type output_dir).file = some fp
      ∧ json_accepts fp.data = true := by
  have h := process_data_json_data env hw bs type output_dir ho
  cases hf : (process_data_json env bs type output_dir).file with
  | none => simp [hf] at h
  | some fp =>
    rw [hf] at h
    simp only [Option.map_some', Option.some.injEq] at h
    refine ⟨fp, rfl, ?_⟩
    rw [h]
    exact json_accepts_document type _ bs ((all_plain_iff type).mpr ht)
      ((all_clean_iff bs).mpr hb)

set_option maxRecDepth 100000 in
/-- C16, witness: the sample records under the category `jobs`, and the empty list. -/
theorem conditional_well_formedness_witness :
    (∃ fp : FILE,
        (process_data_json Env.healthy sample_records (bytes "jobs") (bytes "out")).file
          = some fp ∧ json_accepts fp.data = true)
    ∧ (∃ fp : FILE,
        (process_data_json Env.healthy [] (bytes "jobs") (bytes "out")).file = some fp
          ∧ json_accepts fp.data = true) :=
  ⟨conditional_well_formedness Env.healthy sample_records (bytes "jobs") (bytes "out")
      (fun _ => rfl) rfl ((all_plain_iff _).mp (by decide)) ((all_clean_iff _).mp (by decide)),
    conditional_well_formedness Env.healthy [] (bytes "jobs") (bytes "out")
      (fun _ => rfl) rfl ((all_plain_iff _).mp (by decide)) ((all_clean_iff _).mp (by decide))⟩

set_option maxRecDepth 100000 in
/-- Remark: the category is printed as it is, so the count of unescaped quotes relies on the
category being one of the names `main` passes. For a category outside the seven, such as `a"b`
or `a\`, the document of the empty record list has nine or seven unescaped quotes instead of
the eight delimiters. -/
theorem category_quote_is_not_a_delimiter :
    delimiter_count [] = 8
    ∧ (process_data_json Env.healthy [] (bytes "a\"b") (bytes "out")).file.map
        (fun fp => unescaped_quotes false fp.data) = some 9
    ∧ (process_data_json Env.healthy [] (bytes "a\\") (bytes "out")).file.map
        (fun fp => unescaped_quotes false fp.data) = some 7 := by
  refine ⟨rfl, ?_, ?_⟩ <;> decide

/-- C17: for every string `s` the output of `json_escape` reads, left to right, as two-byte
pairs of a backslash and one of `"`, `\`, `n`, `r`, `t` and single bytes that are none of
quote, backslash, line feed, carriage return and tab, so it holds no unescaped quote and does
not end inside an escape; consequently, in the document of any of the seven categories (when
the file opens and no output call fails) the unescaped quotes are as many as the delimiters
`process_data_json` writes itself, eight, six per record and four per attribute; and every
serializer call of a run of `main` is for one of the seven categories. -/
theorem literals_end_at_their_delimiter (env : Env) (bs : List batch_status)
    (type output_dir : List UInt8)
    (hw : ∀ k, env.write_ok k = true)
    (ho : env.fopen_ok (process_data_json env bs type output_dir).filename = true)
    (ht : type ∈ categories) :
    (∀ (s : List UInt8) (fp : FILE),
        (json_escape env s fp).data = fp.data ++ json_escape_out s
        ∧ well_escaped (json_escape_out s) = true
        ∧ unescaped_quotes false (json_escape_out s) = 0
        ∧ scan_end false (json_escape_out s) = false)
    ∧ (process_data_json env bs type output_dir).file.map
        (fun fp => unescaped_quotes false fp.data) = some (delimiter_count bs)
    ∧ (∀ (w : World) (prog server dir : List UInt8), 0 ≤ w.pbs_connect server →
        ∀ call ∈ serializer_calls (main w [prog, server, dir]).events,
          call.2.1 ∈ categories) := by
  refine ⟨fun s fp => ⟨json_escape_data_out env hw s fp, well_escaped_out s,
    (scans_to_out s).2, (scans_to_out s).1⟩, ?_, serializer_calls_categories⟩
  have h := process_data_json_data env hw bs type output_dir ho
  cases hf : (process_data_json env bs type output_dir).file with
  | none => simp [hf] at h
  | some fp =>
    rw [hf] at h
    simp only [Option.map_some', Option.some.injEq] at h
    simp only [Option.map_some', Option.some.injEq]
    rw [h]
    exact (scans_to_document type _ bs (categories_plain type ht)).2

set_option maxRecDepth 100000 in
/-- C17, witness: the sample records, whose names and values hold quotes and backslashes,
under the category `nodes`. -/
theorem literals_end_at_their_delimiter_witness :
    (∀ k, Env.healthy.write_ok k = true)
    ∧ bytes "nodes" ∈ categories
    ∧ delimiter_count sample_records = 32
    ∧ (process_data_json Env.healthy sample_records (bytes "nodes") (bytes "out")).file.map
        (fun fp => unescaped_quotes false fp.data) = some 32 :=
  ⟨fun _ => rfl, by decide, by decide,
    (literals_end_at_their_delimiter Env.healthy sample_records (bytes "nodes") (bytes "out")
      (fun _ => rfl) rfl (by decide)).2.1⟩

/-- C18: the field key `process_data_json` emits for an attribute, read back from the line
its attribute loop writes, is the text between the opening quote of the line and the next
unescaped quote; for attributes whose names have no dot (all strings without NUL byte), equal
emitted keys come from equal names and equal resources, an absent resource being different
from a present empty one. -/
theorem emitted_key_injective (env : Env) (a b : attrl) (fp : FILE)
    (hw : ∀ k, env.write_ok k = true)
    (hda : (46 : UInt8) ∉ a.name) (hdb : (46 : UInt8) ∉ b.name)
    (hna : (0 : UInt8) ∉ a.name) (hnb : (0 : UInt8) ∉ b.name)
    (hra : ∀ res, a.resource = some res → (0 : UInt8) ∉ res)
    (hrb : ∀ res, b.resource = some res → (0 : UInt8) ∉ res)
    (h : emitted_key a = emitted_key b) :
    (a.name = b.name ∧ a.resource = b.resource)
    ∧ (attr_loop env [a] fp).data
        = fp.data ++ bytes "        \"" ++ emitted_key a ++ bytes "\": \""
            ++ json_escape_out a.value ++ bytes "\"\n"
    ∧ (attr_loop env [b] fp).data
        = fp.data ++ bytes "        \"" ++ emitted_key b ++ bytes "\": \""
            ++ json_escape_out b.value ++ bytes "\"\n" := by
  refine ⟨?_, ?_, ?_⟩
  · rw [emitted_key_eq, emitted_key_eq] at h
    exact field_key_inj a b hda hdb hna hnb hra hrb h
  · rw [emitted_key_eq, attr_loop_single env hw]
  · rw [emitted_key_eq, attr_loop_single env hw]

set_option maxRecDepth 100000 in
/-- C18, witness: two attributes that emit the key `resources_available.mem`; and the keys
emitted for an absent and for a present empty resource differ. -/
theorem emitted_key_injective_witness :
    emitted_key { name := bytes "resources_available", resource := some (bytes "mem"),
                  value := bytes "16gb" } = bytes "resources_available.mem"
    ∧ emitted_key { name := bytes "resources_available", resource := some (bytes "mem"),
                    value := bytes "32gb" } = bytes "resources_available.mem"
    ∧ bytes "resources_available" = bytes "resources_available"
    ∧ emitted_key { name := bytes "state", resource := none, value := [] } = bytes "state"
    ∧ emitted_key { name := bytes "state", resource := some [], value := [] }
        = bytes "state." :=
  ⟨by decide, by decide,
    (emitted_key_injective Env.healthy
      { name := bytes "resources_available", resource := some (bytes "mem"),
        value := bytes "16gb" }
      { name := bytes "resources_available", resource := some (bytes "mem"),
        value := bytes "32gb" } FILE.fresh (fun _ => rfl)
      (by decide) (by decide) (by decide) (by decide)
      (fun res h => by cases h; decide) (fun res h => by cases h; decide) (by decide)).1.1,
    by decide, by decide⟩

/-- C19: `json_escape` on a concatenation `a ++ b` (without NUL byte in `a`) acts as
`json_escape` on `a` followed by `json_escape` on `b`, and on the empty string it makes no
output call; so the bytes written for `a ++ b` are those for `a` followed by those for `b`, and
nothing is written for the empty string. For every string `s` without NUL byte the output is
at least as long as `s`, at most twice as long, and exactly as long as `s` plus the number of
its bytes that are one of the five special bytes. -/
theorem json_escape_homomorphism (env : Env) (a b s : List UInt8) (fp : FILE)
    (ha : (0 : UInt8) ∉ a) (hs : (0 : UInt8) ∉ s) :
    json_escape env (a ++ b) fp = json_escape env b (json_escape env a fp)
    ∧ json_escape env [] fp = fp
    ∧ json_escape_out (a ++ b) = json_escape_out a ++ json_escape_out b
    ∧ json_escape_out [] = []
    ∧ s.length ≤ (json_escape_out s).length
    ∧ (json_escape_out s).length ≤ 2 * s.length
    ∧ (json_escape_out s).length = s.length + s.countP is_special := by
  have hl := json_escape_out_length s hs
  have hc : s.countP is_special ≤ s.length := List.countP_le_length _
  refine ⟨json_escape_append env a b ha fp, rfl, json_escape_out_append a b ha, rfl, ?_, ?_, hl⟩
  · omega
  · omega

set_option maxRecDepth 100000 in
/-- C19, witness: `a"` followed by `\b`, and the length of the output for `a"\b`, a string of
four bytes two of which are special. -/
theorem json_escape_homomorphism_witness :
    (0 : UInt8) ∉ bytes "a\"" ∧ (0 : UInt8) ∉ bytes "a\"\\b"
    ∧ json_escape_out (bytes "a\"" ++ bytes "\\b") = bytes "a\\\"" ++ bytes "\\\\b"
    ∧ (json_escape_out (bytes "a\"\\b")).length = 6 :=
  ⟨by decide, by decide,
    (json_escape_homomorphism Env.healthy (bytes "a\"") (bytes "\\b") (bytes "a\"\\b")
      FILE.fresh (by decide) (by decide)).2.2.1.trans (by decide),
    (json_escape_homomorphism Env.healthy (bytes "a\"") (bytes "\\b") (bytes "a\"\\b")
      FILE.fresh (by decide) (by decide)).2.2.2.2.2.2.trans (by decide)⟩

end PbsCollector
